import Mathlib

/-!
# ding_robot: message model, builders and transport client

A shallow embedding of `ding_robot.go`.

* Go `string` values are byte sequences (`GoString`), not necessarily valid UTF-8.
* Go slices are modelled by their contents, keeping the distinction between the nil slice
  and an empty non-nil slice (`Slice.nil` versus `Slice.mk []`), which `encoding/json` renders
  differently (`null` versus `[]`).
* Builders have pointer receivers that mutate the builder and return it; here every method
  takes the builder state and returns the new state.
* The standard-library functions called by the source (`strings.Replace`, `json.Marshal`,
  `json.Unmarshal`, `errors.New`, the `unicode/utf8` helpers) are embedded from their Go
  sources; the network (`http.Post`, `ioutil.ReadAll`) is a parameter of `SendMessage`.
* `json.Marshal` is the struct-to-value step `toJValue` (field order and `json` tags) followed
  by the text encoder `JValue.encode`; `json.Unmarshal` is the scanner `parseJSON` followed by
  the decoder of the target type. Both work on bytes.
* Where Go releases differ, the current one is followed: `appendString` writes the short
  escapes for backspace and form feed, and the scanner limits nesting to 10000 levels. A Go
  `int` is 64 bits wide. A slice that is decoded into has no spare capacity.
* Recursion that Lean cannot see to terminate is bounded by a `fuel` argument; the section on
  fuel at the end proves that the bounds used are never reached.
-/

namespace Ding

set_option maxRecDepth 1000000

/-! ## Go base types -/

/-- A Go `byte`. -/
abbrev Byte := Fin 256

/-- A Go `string`: an immutable byte sequence. -/
abbrev GoString := List Byte

/-- Contents of a Go slice; `nil` is the nil slice, `mk []` an empty non-nil slice. -/
inductive Slice (α : Type) where
  | nil : Slice α
  | mk (elems : List α) : Slice α
  deriving DecidableEq, Repr

/-- Elements of a slice in order (the nil slice has none). -/
def Slice.toList {α : Type} : Slice α → List α
  | Slice.nil => []
  | Slice.mk l => l

/-- Go `len(s)`. -/
def Slice.len {α : Type} (s : Slice α) : Nat := s.toList.length

/-- Go `append(s, x)`: the result is never nil. -/
def Slice.append {α : Type} (s : Slice α) (x : α) : Slice α :=
  Slice.mk (s.toList ++ [x])

/-- Go `make([]T, 0)`. -/
def Slice.make0 {α : Type} : Slice α := Slice.mk []

/-! ## unicode/utf8 -/

/-- Go `utf8.RuneError`, U+FFFD. -/
def RuneError : Nat := 0xFFFD

/-- Go `utf8.DecodeRune`: the first rune of `p` and its width in bytes; `(RuneError, 1)` for
an invalid encoding and `(RuneError, 0)` for empty input. The table `first` and the
`acceptRanges` are unfolded into comparisons on the first byte; masks and shifts are written
as `%` and `*`. -/
def DecodeRune (p : List Byte) : Nat × Nat :=
  match p with
  | [] => (RuneError, 0)
  | p0 :: t =>
    if p0.val < 0x80 then (p0.val, 1)
    else if p0.val < 0xC2 ∨ 0xF4 < p0.val then (RuneError, 1)
    else
      let sz : Nat := if p0.val < 0xE0 then 2 else if p0.val < 0xF0 then 3 else 4
      let lo : Nat := if p0.val = 0xE0 then 0xA0 else if p0.val = 0xF0 then 0x90 else 0x80
      let hi : Nat := if p0.val = 0xED then 0x9F else if p0.val = 0xF4 then 0x8F else 0xBF
      if p.length < sz then (RuneError, 1)
      else
        match t with
        | [] => (RuneError, 1)
        | b1 :: t1 =>
          if b1.val < lo ∨ hi < b1.val then (RuneError, 1)
          else if sz ≤ 2 then (p0.val % 32 * 64 + b1.val % 64, 2)
          else
            match t1 with
            | [] => (RuneError, 1)
            | b2 :: t2 =>
              if b2.val < 0x80 ∨ 0xBF < b2.val then (RuneError, 1)
              else if sz ≤ 3 then (p0.val % 16 * 4096 + b1.val % 64 * 64 + b2.val % 64, 3)
              else
                match t2 with
                | [] => (RuneError, 1)
                | b3 :: _ =>
                  if b3.val < 0x80 ∨ 0xBF < b3.val then (RuneError, 1)
                  else (p0.val % 8 * 262144 + b1.val % 64 * 4096 + b2.val % 64 * 64
                          + b3.val % 64, 4)

/-- Go `utf8.EncodeRune` / `utf8.AppendRune` for a non-negative rune: surrogates and values
above U+10FFFF are written as U+FFFD. -/
def EncodeRune (r : Nat) : List Byte :=
  if r ≤ 0x7F then [Fin.ofNat r]
  else if r ≤ 0x7FF then [Fin.ofNat (0xC0 + r / 64), Fin.ofNat (0x80 + r % 64)]
  else if 0x10FFFF < r ∨ (0xD800 ≤ r ∧ r ≤ 0xDFFF) then [0xEF, 0xBF, 0xBD]
  else if r ≤ 0xFFFF then
    [Fin.ofNat (0xE0 + r / 4096), Fin.ofNat (0x80 + r / 64 % 64), Fin.ofNat (0x80 + r % 64)]
  else
    [Fin.ofNat (0xF0 + r / 262144), Fin.ofNat (0x80 + r / 4096 % 64),
     Fin.ofNat (0x80 + r / 64 % 64), Fin.ofNat (0x80 + r % 64)]

/-- The loop of Go `utf8.RuneCountInString`, with `fuel` bounding the number of runes. -/
def RuneCountAux : Nat → List Byte → Nat
  | 0, _ => 0
  | _ + 1, [] => 0
  | fuel + 1, b :: t => 1 + RuneCountAux fuel ((b :: t).drop (DecodeRune (b :: t)).2)

/-- Go `utf8.RuneCountInString`. -/
def RuneCountInString (s : GoString) : Nat := RuneCountAux s.length s

/-- The loop of Go `utf8.ValidString`: every rune of `s` decodes without error. -/
def ValidAux : Nat → List Byte → Bool
  | 0, s => s.isEmpty
  | _ + 1, [] => true
  | fuel + 1, b :: t =>
    let d := DecodeRune (b :: t)
    if d.1 = RuneError ∧ d.2 = 1 then false else ValidAux fuel ((b :: t).drop d.2)

/-- Go `utf8.ValidString`; by `ValidAux_fuel` the fuel is enough. -/
def ValidString (s : GoString) : Bool := ValidAux s.length s

/-- The bytes of a source-code string literal (Go source files are UTF-8). -/
def lit (s : String) : GoString := s.toList.flatMap (fun c => EncodeRune c.toNat)

/-! ## strings -/

/-- Go `strings.HasPrefix`. -/
def startsWith : GoString → GoString → Bool
  | _, [] => true
  | [], _ :: _ => false
  | a :: s, b :: p => a == b && startsWith s p

/-- Go `strings.Index`: the offset of the first occurrence of `sep` in `s`, or `-1`. -/
def Index : GoString → GoString → Int
  | [], sep => if sep.isEmpty then 0 else -1
  | a :: s, sep =>
    if startsWith (a :: s) sep then 0
    else
      match Index s sep with
      | Int.negSucc _ => -1
      | Int.ofNat k => Int.ofNat (k + 1)

/-- Non-overlapping occurrences of a non-empty `sep` in `s`; `fuel` bounds the scan. -/
def countAux : Nat → GoString → GoString → Nat
  | 0, _, _ => 0
  | fuel + 1, s, sep =>
    match Index s sep with
    | Int.negSucc _ => 0
    | Int.ofNat k => 1 + countAux fuel (s.drop (k + sep.length)) sep

/-- Go `strings.Count`: non-overlapping occurrences of `sep`; for an empty `sep`, one more
than the number of runes. -/
def Count (s sep : GoString) : Nat :=
  if sep.isEmpty then RuneCountInString s + 1 else countAux (s.length + 1) s sep

/-- The replacement loop of `strings.Replace`: `i` is the loop counter, `k` the iterations
left and `rest` is `s[start:]`; the result is what is written to the buffer from here on. -/
def replaceLoop (old new : GoString) : Nat → Nat → GoString → GoString
  | 0, _, rest => rest
  | k + 1, i, rest =>
    let j : Nat :=
      if old.isEmpty then (if 0 < i then (DecodeRune rest).2 else 0)
      else (Index rest old).toNat
    rest.take j ++ new ++ replaceLoop old new k (i + 1) (rest.drop (j + old.length))

/-- Go `strings.Replace(s, old, new, n)`. -/
def Replace (s old new : GoString) (n : Int) : GoString :=
  if old = new ∨ n = 0 then s
  else
    let m := Count s old
    if m = 0 then s
    else
      let n1 : Nat := if n < 0 ∨ (m : Int) < n then m else n.toNat
      replaceLoop old new n1 0 s

/-! ## Data model (ding_robot.go, lines 13-86 and 123-132) -/

abbrev MessageType := GoString
abbrev Orientation := GoString
abbrev AvatarState := GoString

def BaseSendURL : GoString :=
  lit "https://oapi.dingtalk.com/robot/send?access_token=\x7bACCESS_TOKEN\x7d"
def JSONType : GoString := lit "application/json"

def TypeText : MessageType := lit "text"
def TypeLink : MessageType := lit "link"
def TypeMarkdown : MessageType := lit "markdown"
def TypeActionCard : MessageType := lit "actionCard"
def TypeFeedCard : MessageType := lit "feedCard"

def OrientationVertical : Orientation := lit "0"
def OrientationHorizon : Orientation := lit "1"

def ShowAvatar : AvatarState := lit "0"
def HideAvatar : AvatarState := lit "1"

structure AtElement where
  AtMobiles : Slice GoString
  IsAtAll : Bool
  deriving DecidableEq, Repr

structure TextElement where
  Content : GoString
  deriving DecidableEq, Repr

structure LinkElement where
  Title : GoString
  Text : GoString
  MessageURL : GoString
  PictureURL : GoString
  deriving DecidableEq, Repr

structure FeedLinkElement where
  Title : GoString
  Text : GoString
  MessageURL : GoString
  PictureURL : GoString
  deriving DecidableEq, Repr

structure MarkdownElement where
  Title : GoString
  Text : GoString
  deriving DecidableEq, Repr

structure ButtonElement where
  Title : GoString
  ActionURL : GoString
  deriving DecidableEq, Repr

structure ActionCardElement where
  Title : GoString
  Text : GoString
  SingleTitle : GoString
  SingleURL : GoString
  ButtonOrientation : Orientation
  Avatar : AvatarState
  Buttons : Slice ButtonElement
  deriving DecidableEq, Repr

structure FeedCardElement where
  Links : Slice FeedLinkElement
  deriving DecidableEq, Repr

/-- The message envelope; the Go field `Type` is spelled `Type_` here. -/
structure DingMessage where
  Type_ : MessageType
  Text : TextElement
  Link : LinkElement
  Markdown : MarkdownElement
  ActionCard : ActionCardElement
  FeedCard : FeedCardElement
  At : AtElement
  deriving DecidableEq, Repr

/-! Go zero values of the element types. -/

def TextElement.zero : TextElement := { Content := [] }
def LinkElement.zero : LinkElement := { Title := [], Text := [], MessageURL := [], PictureURL := [] }
def MarkdownElement.zero : MarkdownElement := { Title := [], Text := [] }
def ActionCardElement.zero : ActionCardElement :=
  { Title := [], Text := [], SingleTitle := [], SingleURL := [], ButtonOrientation := [],
    Avatar := [], Buttons := Slice.nil }
def FeedCardElement.zero : FeedCardElement := { Links := Slice.nil }
def AtElement.zero : AtElement := { AtMobiles := Slice.nil, IsAtAll := false }
def FeedLinkElement.zero : FeedLinkElement :=
  { Title := [], Text := [], MessageURL := [], PictureURL := [] }
def ButtonElement.zero : ButtonElement := { Title := [], ActionURL := [] }
def DingMessage.zero : DingMessage :=
  { Type_ := [], Text := TextElement.zero, Link := LinkElement.zero,
    Markdown := MarkdownElement.zero, ActionCard := ActionCardElement.zero,
    FeedCard := FeedCardElement.zero, At := AtElement.zero }

/-! ## ActionCard builder (lines 88-121) -/

structure actionCardBuilder where
  actionCard : ActionCardElement
  deriving DecidableEq, Repr

def NewActionCardBuilder (title text : GoString) (buttonOrientation : Orientation)
    (avatarState : AvatarState) : actionCardBuilder :=
  { actionCard :=
      { Title := title, Text := text, SingleTitle := [], SingleURL := [],
        ButtonOrientation := buttonOrientation, Avatar := avatarState,
        Buttons := Slice.make0 } }

def actionCardBuilder.SingleButton (builder : actionCardBuilder) (title URL : GoString) :
    actionCardBuilder :=
  { builder with actionCard :=
      { builder.actionCard with SingleTitle := title, SingleURL := URL } }

def actionCardBuilder.Button (builder : actionCardBuilder) (title URL : GoString) :
    actionCardBuilder :=
  { builder with actionCard :=
      { builder.actionCard with
        Buttons := builder.actionCard.Buttons.append { Title := title, ActionURL := URL } } }

def actionCardBuilder.Build (builder : actionCardBuilder) : ActionCardElement :=
  builder.actionCard

/-! ## FeedCard builder (lines 134-157) -/

structure feedCardBuilder where
  feedCard : FeedCardElement
  deriving DecidableEq, Repr

def NewFeedCardBuilder : feedCardBuilder :=
  { feedCard := { Links := Slice.make0 } }

def feedCardBuilder.Link (builder : feedCardBuilder) (title messageURL pictureURL : GoString) :
    feedCardBuilder :=
  { builder with feedCard :=
      { builder.feedCard with
        Links := builder.feedCard.Links.append
          { Title := title, Text := [], MessageURL := messageURL, PictureURL := pictureURL } } }

def feedCardBuilder.Build (builder : feedCardBuilder) : FeedCardElement :=
  builder.feedCard

/-! ## Message builder (lines 200-255) -/

structure MessageBuilder where
  message : DingMessage
  deriving DecidableEq, Repr

def NewMessageBuilder (msgType : MessageType) : MessageBuilder :=
  { message := { DingMessage.zero with Type_ := msgType } }

def MessageBuilder.Text (builder : MessageBuilder) (text : GoString) : MessageBuilder :=
  { builder with message := { builder.message with Text := { Content := text } } }

def MessageBuilder.Link (builder : MessageBuilder) (title text messageURL pictureURL : GoString) :
    MessageBuilder :=
  { builder with message :=
      { builder.message with
        Link := { Title := title, Text := text, MessageURL := messageURL,
                  PictureURL := pictureURL } } }

def MessageBuilder.Markdown (builder : MessageBuilder) (title text : GoString) : MessageBuilder :=
  { builder with message := { builder.message with Markdown := { Title := title, Text := text } } }

def MessageBuilder.ActionCard (builder : MessageBuilder) (element : ActionCardElement) :
    MessageBuilder :=
  { builder with message := { builder.message with ActionCard := element } }

def MessageBuilder.FeedCard (builder : MessageBuilder) (element : FeedCardElement) :
    MessageBuilder :=
  { builder with message := { builder.message with FeedCard := element } }

def MessageBuilder.At (builder : MessageBuilder) (mobiles : Slice GoString) (isAtAll : Bool) :
    MessageBuilder :=
  { builder with message :=
      { builder.message with At := { AtMobiles := mobiles, IsAtAll := isAtAll } } }

def MessageBuilder.Build (builder : MessageBuilder) : DingMessage :=
  builder.message

/-! ## Client construction (lines 164-174) -/

structure DingRobot where
  AccessToken : GoString
  SendURL : GoString
  deriving DecidableEq, Repr

def NewRobot (accessToken : GoString) : DingRobot :=
  { AccessToken := accessToken,
    SendURL := Replace BaseSendURL (lit "\x7bACCESS_TOKEN\x7d") accessToken 1 }

/-! ## errors -/

/-- Go `error` values that `SendMessage` can return. -/
inductive GoError where
  /-- The value of `errors.New(s)`; its `Error()` is `s`. -/
  | errorString (s : GoString)
  /-- A `*json.SyntaxError`. -/
  | SyntaxError
  /-- A `*json.UnmarshalTypeError` with its `Value` field. -/
  | UnmarshalTypeError (Value : GoString)
  /-- An error value produced outside this package (by `net/http` or by reading the body),
  identified by its text. -/
  | foreign (text : GoString)
  deriving DecidableEq, Repr

/-- Go `errors.New`. -/
def errorsNew (text : GoString) : GoError := GoError.errorString text

/-- Go `Error()` of an `errors.New` value or of a foreign error; the texts of the
`encoding/json` errors are not modelled. -/
def GoError.Error : GoError → Option GoString
  | GoError.errorString s => some s
  | GoError.foreign text => some text
  | _ => none

/-! ## encoding/json: the encoder -/

/-- A JSON value as `encoding/json` writes or reads it. Strings hold Go strings; a number
holds its literal text. -/
inductive JValue where
  | null : JValue
  | bool (b : Bool) : JValue
  | number (literal : GoString) : JValue
  | string (s : GoString) : JValue
  | array (elems : List JValue) : JValue
  | object (members : List (GoString × JValue)) : JValue

/-- The digit `"0123456789abcdef"[n]`. -/
def hex (n : Nat) : Byte := if n < 10 then Fin.ofNat (0x30 + n) else Fin.ofNat (0x57 + n)

/-- The table `htmlSafeSet` for an ASCII byte: everything from the space on except the double
quote, the ampersand, the angle brackets and the backslash. -/
def htmlSafe (b : Byte) : Bool :=
  0x20 ≤ b.val && b.val != 0x22 && b.val != 0x26 && b.val != 0x3C && b.val != 0x3E
    && b.val != 0x5C

/-- The escape that `appendString` writes for an ASCII byte outside `htmlSafeSet`. -/
def escapeByte (b : Byte) : List Byte :=
  if b.val = 0x5C ∨ b.val = 0x22 then [0x5C, b]
  else if b.val = 0x08 then [0x5C, 0x62]
  else if b.val = 0x0C then [0x5C, 0x66]
  else if b.val = 0x0A then [0x5C, 0x6E]
  else if b.val = 0x0D then [0x5C, 0x72]
  else if b.val = 0x09 then [0x5C, 0x74]
  else [0x5C, 0x75, 0x30, 0x30, hex (b.val / 16), hex (b.val % 16)]

/-- The loop of `appendString` (with `escapeHTML` set, as `json.Marshal` does): what is
written between the two quotes for the string `s`. -/
def escapeAux : Nat → GoString → List Byte
  | 0, _ => []
  | _ + 1, [] => []
  | fuel + 1, b :: t =>
    if b.val < 0x80 then
      (if htmlSafe b then [b] else escapeByte b) ++ escapeAux fuel t
    else
      let d := DecodeRune (b :: t)
      if d.1 = RuneError ∧ d.2 = 1 then
        [0x5C, 0x75, 0x66, 0x66, 0x66, 0x64] ++ escapeAux fuel t
      else if d.1 = 0x2028 ∨ d.1 = 0x2029 then
        [0x5C, 0x75, 0x32, 0x30, 0x32, hex (d.1 % 16)] ++ escapeAux fuel ((b :: t).drop d.2)
      else
        (b :: t).take d.2 ++ escapeAux fuel ((b :: t).drop d.2)

/-- Go `appendString`: the JSON string literal for `s`; by `escapeAux_fuel` the fuel is
enough. -/
def quote (s : GoString) : List Byte := 0x22 :: escapeAux s.length s ++ [0x22]

mutual
/-- The compact JSON text of a value, as the encoder writes it. -/
def JValue.encode : JValue → List Byte
  | JValue.null => [0x6E, 0x75, 0x6C, 0x6C]
  | JValue.bool b => if b then [0x74, 0x72, 0x75, 0x65] else [0x66, 0x61, 0x6C, 0x73, 0x65]
  | JValue.number literal => literal
  | JValue.string s => quote s
  | JValue.array elems => 0x5B :: encodeElems elems ++ [0x5D]
  | JValue.object members => 0x7B :: encodeMembers members ++ [0x7D]
/-- The elements of an array, separated by commas. -/
def encodeElems : List JValue → List Byte
  | [] => []
  | [x] => x.encode
  | x :: y :: l => x.encode ++ 0x2C :: encodeElems (y :: l)
/-- The members of an object, `"key":value` separated by commas. -/
def encodeMembers : List (GoString × JValue) → List Byte
  | [] => []
  | [(k, x)] => quote k ++ 0x3A :: x.encode
  | (k, x) :: y :: l => quote k ++ 0x3A :: x.encode ++ 0x2C :: encodeMembers (y :: l)
end

/-- A slice value: `null` for the nil slice, an array otherwise. -/
def sliceToJValue {α : Type} (f : α → JValue) : Slice α → JValue
  | Slice.nil => JValue.null
  | Slice.mk l => JValue.array (l.map f)

def TextElement.toJValue (e : TextElement) : JValue :=
  JValue.object [(lit "content", JValue.string e.Content)]

def LinkElement.toJValue (e : LinkElement) : JValue :=
  JValue.object
    [(lit "title", JValue.string e.Title), (lit "text", JValue.string e.Text),
     (lit "messageUrl", JValue.string e.MessageURL), (lit "picUrl", JValue.string e.PictureURL)]

def FeedLinkElement.toJValue (e : FeedLinkElement) : JValue :=
  JValue.object
    [(lit "title", JValue.string e.Title), (lit "text", JValue.string e.Text),
     (lit "messageURL", JValue.string e.MessageURL), (lit "picURL", JValue.string e.PictureURL)]

def MarkdownElement.toJValue (e : MarkdownElement) : JValue :=
  JValue.object [(lit "title", JValue.string e.Title), (lit "text", JValue.string e.Text)]

def ButtonElement.toJValue (e : ButtonElement) : JValue :=
  JValue.object [(lit "title", JValue.string e.Title), (lit "actionURL", JValue.string e.ActionURL)]

def ActionCardElement.toJValue (e : ActionCardElement) : JValue :=
  JValue.object
    [(lit "title", JValue.string e.Title), (lit "text", JValue.string e.Text),
     (lit "singleTitle", JValue.string e.SingleTitle),
     (lit "singleURL", JValue.string e.SingleURL),
     (lit "btnOrientation", JValue.string e.ButtonOrientation),
     (lit "hideAvatar", JValue.string e.Avatar),
     (lit "btns", sliceToJValue ButtonElement.toJValue e.Buttons)]

def FeedCardElement.toJValue (e : FeedCardElement) : JValue :=
  JValue.object [(lit "links", sliceToJValue FeedLinkElement.toJValue e.Links)]

def AtElement.toJValue (e : AtElement) : JValue :=
  JValue.object
    [(lit "atMobiles", sliceToJValue JValue.string e.AtMobiles),
     (lit "isAtAll", JValue.bool e.IsAtAll)]

/-- The JSON value the encoder writes for a `DingMessage`: one member per struct field, in
declaration order, under the name of its `json` tag. -/
def DingMessage.toJValue (m : DingMessage) : JValue :=
  JValue.object
    [(lit "msgtype", JValue.string m.Type_), (lit "text", m.Text.toJValue),
     (lit "link", m.Link.toJValue), (lit "markdown", m.Markdown.toJValue),
     (lit "actionCard", m.ActionCard.toJValue), (lit "feedCard", m.FeedCard.toJValue),
     (lit "at", m.At.toJValue)]

/-- Go `json.Marshal(msg)` for a `DingMessage`: no field of the struct has a type the encoder
rejects, so the error is always nil. -/
def Marshal (msg : DingMessage) : GoString × Option GoError :=
  (msg.toJValue.encode, none)

/-! ## encoding/json: the scanner -/

/-- The scanner accepts at most this many open arrays and objects around a value. -/
def maxNestingDepth : Nat := 10000

/-- Scanner `isSpace`: space, tab, carriage return, line feed. -/
def isSpace (c : Byte) : Bool :=
  c.val = 0x20 || c.val = 0x09 || c.val = 0x0D || c.val = 0x0A

/-- Drop leading white space. -/
def skipSpace : List Byte → List Byte
  | [] => []
  | c :: r => if isSpace c then skipSpace r else c :: r

/-- An ASCII decimal digit. -/
def isDigit (c : Byte) : Bool := 0x30 ≤ c.val && c.val ≤ 0x39

/-- The value of a hexadecimal digit, or `-1`. -/
def hexVal (c : Byte) : Int :=
  if 0x30 ≤ c.val ∧ c.val ≤ 0x39 then ((c.val - 0x30 : Nat) : Int)
  else if 0x61 ≤ c.val ∧ c.val ≤ 0x66 then ((c.val - 0x61 + 10 : Nat) : Int)
  else if 0x41 ≤ c.val ∧ c.val ≤ 0x46 then ((c.val - 0x41 + 10 : Nat) : Int)
  else -1

/-- The scanner inside a string literal, after the opening quote (`stateInString`,
`stateInStringEsc`, `stateInStringEscU...`): the bytes up to the closing quote and the input
after it. Control characters and malformed escapes are syntax errors. -/
def scanString : List Byte → Option (List Byte × List Byte)
  | [] => none
  | c :: r =>
    if c.val = 0x22 then some ([], r)
    else if c.val = 0x5C then
      match r with
      | [] => none
      | e :: r1 =>
        if e.val = 0x75 then
          match r1 with
          | h1 :: h2 :: h3 :: h4 :: r2 =>
            if 0 ≤ hexVal h1 ∧ 0 ≤ hexVal h2 ∧ 0 ≤ hexVal h3 ∧ 0 ≤ hexVal h4 then
              match scanString r2 with
              | none => none
              | some p => some (c :: e :: h1 :: h2 :: h3 :: h4 :: p.1, p.2)
            else none
          | _ => none
        else if e.val = 0x62 ∨ e.val = 0x66 ∨ e.val = 0x6E ∨ e.val = 0x72 ∨ e.val = 0x74
            ∨ e.val = 0x5C ∨ e.val = 0x2F ∨ e.val = 0x22 then
          match scanString r1 with
          | none => none
          | some p => some (c :: e :: p.1, p.2)
        else none
    else if c.val < 0x20 then none
    else
      match scanString r with
      | none => none
      | some p => some (c :: p.1, p.2)

/-- Decoder `getu4`: the value of a leading `\uXXXX` escape, or `-1`. -/
def getu4 (s : List Byte) : Int :=
  match s with
  | b0 :: b1 :: h1 :: h2 :: h3 :: h4 :: _ =>
    if b0.val = 0x5C ∧ b1.val = 0x75 ∧ 0 ≤ hexVal h1 ∧ 0 ≤ hexVal h2 ∧ 0 ≤ hexVal h3
        ∧ 0 ≤ hexVal h4 then
      ((hexVal h1 * 16 + hexVal h2) * 16 + hexVal h3) * 16 + hexVal h4
    else -1
  | _ => -1

/-- Go `utf16.IsSurrogate`. -/
def IsSurrogate (r : Int) : Bool := 0xD800 ≤ r && r < 0xE000

/-- Go `utf16.DecodeRune`: the code point of a surrogate pair, or U+FFFD. -/
def utf16DecodeRune (r1 r2 : Int) : Int :=
  if 0xD800 ≤ r1 ∧ r1 < 0xDC00 ∧ 0xDC00 ≤ r2 ∧ r2 < 0xE000 then
    (r1 - 0xD800) * 1024 + (r2 - 0xDC00) + 0x10000
  else 0xFFFD

/-- Decoder `unquoteBytes` on the inside of a string literal: escapes are decoded and
invalid UTF-8 is replaced by U+FFFD. -/
def unquoteAux : Nat → List Byte → Option GoString
  | 0, s => if s.isEmpty then some [] else none
  | _ + 1, [] => some []
  | fuel + 1, c :: r =>
    if c.val = 0x5C then
      match r with
      | [] => none
      | e :: r1 =>
        if e.val = 0x22 ∨ e.val = 0x5C ∨ e.val = 0x2F ∨ e.val = 0x27 then
          (unquoteAux fuel r1).map (fun t => e :: t)
        else if e.val = 0x62 then (unquoteAux fuel r1).map (fun t => 0x08 :: t)
        else if e.val = 0x66 then (unquoteAux fuel r1).map (fun t => 0x0C :: t)
        else if e.val = 0x6E then (unquoteAux fuel r1).map (fun t => 0x0A :: t)
        else if e.val = 0x72 then (unquoteAux fuel r1).map (fun t => 0x0D :: t)
        else if e.val = 0x74 then (unquoteAux fuel r1).map (fun t => 0x09 :: t)
        else if e.val = 0x75 then
          let rr := getu4 (c :: r)
          if rr < 0 then none
          else
            let rest := (c :: r).drop 6
            if IsSurrogate rr then
              let dec := utf16DecodeRune rr (getu4 rest)
              if dec ≠ 0xFFFD then
                (unquoteAux fuel (rest.drop 6)).map (fun t => EncodeRune dec.toNat ++ t)
              else (unquoteAux fuel rest).map (fun t => EncodeRune RuneError ++ t)
            else (unquoteAux fuel rest).map (fun t => EncodeRune rr.toNat ++ t)
        else none
    else if c.val = 0x22 ∨ c.val < 0x20 then none
    else if c.val < 0x80 then (unquoteAux fuel r).map (fun t => c :: t)
    else
      let d := DecodeRune (c :: r)
      (unquoteAux fuel ((c :: r).drop d.2)).map (fun t => EncodeRune d.1 ++ t)

/-- Decoder `unquoteBytes` applied to the inside of a string literal; by `unquoteAux_fuel` the
fuel is enough. -/
def unquote (content : List Byte) : Option GoString := unquoteAux content.length content

/-- The leading run of decimal digits and the input after it. -/
def spanDigits : List Byte → List Byte × List Byte
  | [] => ([], [])
  | c :: r => if isDigit c then ((c :: (spanDigits r).1), (spanDigits r).2) else ([], c :: r)

/-- An optional leading sign byte (one accepted by `isSign`) split off the input. -/
def splitSign (isSign : Byte → Bool) (s : List Byte) : List Byte × List Byte :=
  match s with
  | c :: r => if isSign c then ([c], r) else ([], s)
  | [] => ([], [])

/-- The scanner after the integer part of a number (`state0`, `stateDot`, `stateDot0`): an
optional fraction is appended to `acc`. -/
def scanFrac (acc : List Byte) (s : List Byte) : Option (List Byte × List Byte) :=
  match s with
  | c :: r =>
    if c.val = 0x2E then
      (if (spanDigits r).1.isEmpty then none
       else some (acc ++ c :: (spanDigits r).1, (spanDigits r).2))
    else some (acc, s)
  | [] => some (acc, [])

/-- The scanner after the fraction of a number (`stateE`, `stateESign`, `stateE0`): an optional
exponent is appended to `acc`. -/
def scanExp (acc : List Byte) (s : List Byte) : Option (List Byte × List Byte) :=
  match s with
  | c :: r =>
    if c.val = 0x65 ∨ c.val = 0x45 then
      (if (spanDigits (splitSign (fun d => d.val = 0x2B || d.val = 0x2D) r).2).1.isEmpty then none
       else
        some (acc ++ c :: (splitSign (fun d => d.val = 0x2B || d.val = 0x2D) r).1
                ++ (spanDigits (splitSign (fun d => d.val = 0x2B || d.val = 0x2D) r).2).1,
              (spanDigits (splitSign (fun d => d.val = 0x2B || d.val = 0x2D) r).2).2))
    else some (acc, s)
  | [] => some (acc, [])

/-- An optional fraction and an optional exponent after the integer part of a number. -/
def scanFracExp (acc : List Byte) (s : List Byte) : Option (List Byte × List Byte) :=
  match scanFrac acc s with
  | none => none
  | some p => scanExp p.1 p.2

/-- The scanner on a number literal (`stateNeg`, `state0`, `state1`, ...): the literal and the
input after it. -/
def scanNumber (s : List Byte) : Option (List Byte × List Byte) :=
  match (splitSign (fun c => c.val = 0x2D) s).2 with
  | [] => none
  | c :: r =>
    if c.val = 0x30 then scanFracExp ((splitSign (fun c => c.val = 0x2D) s).1 ++ [c]) r
    else if 0x31 ≤ c.val ∧ c.val ≤ 0x39 then
      scanFracExp ((splitSign (fun c => c.val = 0x2D) s).1 ++ c :: (spanDigits r).1)
        (spanDigits r).2
    else none

mutual
/-- The scanner and the token reader on one JSON value at nesting depth `depth`, white space
before it allowed: the value and the input after it, or `none` for a syntax error.
`fuel` bounds the recursion; by `parseValue_fuel`, fuel beyond `inputLength + 1` changes
nothing. -/
def parseValue : Nat → Nat → List Byte → Option (JValue × List Byte)
  | 0, _, _ => none
  | fuel + 1, depth, s =>
    match skipSpace s with
    | [] => none
    | c :: r =>
      if c.val = 0x7B then
        if maxNestingDepth ≤ depth then none
        else
          match skipSpace r with
          | [] => none
          | c1 :: r1 =>
            if c1.val = 0x7D then some (JValue.object [], r1)
            else
              match parseMembers fuel (depth + 1) (c1 :: r1) with
              | none => none
              | some (ms, rest) => some (JValue.object ms, rest)
      else if c.val = 0x5B then
        if maxNestingDepth ≤ depth then none
        else
          match skipSpace r with
          | [] => none
          | c1 :: r1 =>
            if c1.val = 0x5D then some (JValue.array [], r1)
            else
              match parseElems fuel (depth + 1) (c1 :: r1) with
              | none => none
              | some (es, rest) => some (JValue.array es, rest)
      else if c.val = 0x22 then
        match scanString r with
        | none => none
        | some (content, rest) =>
          match unquote content with
          | none => none
          | some str => some (JValue.string str, rest)
      else if c.val = 0x2D ∨ isDigit c then
        match scanNumber (c :: r) with
        | none => none
        | some (literal, rest) => some (JValue.number literal, rest)
      else if c.val = 0x74 then
        match r with
        | c1 :: c2 :: c3 :: rest =>
          if c1.val = 0x72 ∧ c2.val = 0x75 ∧ c3.val = 0x65 then some (JValue.bool true, rest)
          else none
        | _ => none
      else if c.val = 0x66 then
        match r with
        | c1 :: c2 :: c3 :: c4 :: rest =>
          if c1.val = 0x61 ∧ c2.val = 0x6C ∧ c3.val = 0x73 ∧ c4.val = 0x65 then
            some (JValue.bool false, rest)
          else none
        | _ => none
      else if c.val = 0x6E then
        match r with
        | c1 :: c2 :: c3 :: rest =>
          if c1.val = 0x75 ∧ c2.val = 0x6C ∧ c3.val = 0x6C then some (JValue.null, rest)
          else none
        | _ => none
      else none
/-- The members of an object from a key on: `"key" : value`, then a comma and more members or
the closing brace. -/
def parseMembers : Nat → Nat → List Byte → Option (List (GoString × JValue) × List Byte)
  | 0, _, _ => none
  | fuel + 1, depth, s =>
    match skipSpace s with
    | [] => none
    | c :: r =>
      if c.val = 0x22 then
        match scanString r with
        | none => none
        | some (content, rest) =>
          match unquote content with
          | none => none
          | some key =>
            match skipSpace rest with
            | [] => none
            | c1 :: r1 =>
              if c1.val = 0x3A then
                match parseValue fuel depth r1 with
                | none => none
                | some (v, rest1) =>
                  match skipSpace rest1 with
                  | [] => none
                  | c2 :: r2 =>
                    if c2.val = 0x7D then some ([(key, v)], r2)
                    else if c2.val = 0x2C then
                      match parseMembers fuel depth r2 with
                      | none => none
                      | some (ms, rest2) => some ((key, v) :: ms, rest2)
                    else none
              else none
      else none
/-- The elements of an array from a value on: a value, then a comma and more elements or the
closing bracket. -/
def parseElems : Nat → Nat → List Byte → Option (List JValue × List Byte)
  | 0, _, _ => none
  | fuel + 1, depth, s =>
    match parseValue fuel depth s with
    | none => none
    | some (v, rest1) =>
      match skipSpace rest1 with
      | [] => none
      | c2 :: r2 =>
        if c2.val = 0x5D then some ([v], r2)
        else if c2.val = 0x2C then
          match parseElems fuel depth r2 with
          | none => none
          | some (es, rest2) => some (v :: es, rest2)
        else none
end

/-- Decoder `checkValid` and token reading on a whole input: one JSON value with white space
around it, or `none` for a syntax error. -/
def parseJSON (data : List Byte) : Option JValue :=
  match parseValue (data.length + 1) 0 data with
  | none => none
  | some (v, rest) => if (skipSpace rest).isEmpty then some v else none

/-! ## encoding/json: the decoder

Every decoding function takes the JSON value and the current Go value and returns the new Go
value together with the error the decoder saves (`d.saveError` keeps the first one). A type
mismatch leaves the target unchanged and decoding goes on. The rule that matches an object
key with a struct field under case folding depends on Unicode tables; it is the parameter
`equalFold name key`. -/

/-- Decoder `saveError`: the first saved error is kept. -/
def saveError (saved new : Option GoError) : Option GoError :=
  match saved with
  | some e => some e
  | none => new

/-- Go `strconv.ParseInt(s, 10, 64)` on the literal of a JSON number: an optional minus sign
and decimal digits, within the range of `int64`. -/
def ParseInt (literal : List Byte) : Option Int :=
  let sg : Bool × List Byte :=
    match literal with
    | c :: r => if c.val = 0x2D then (true, r) else (false, literal)
    | [] => (false, [])
  if sg.2.isEmpty ∨ ¬ sg.2.all isDigit then none
  else
    let n : Nat := sg.2.foldl (fun a c => a * 10 + (c.val - 0x30)) 0
    let v : Int := if sg.1 then -(n : Int) else (n : Int)
    if -(2 : Int) ^ 63 ≤ v ∧ v < (2 : Int) ^ 63 then some v else none

/-- Decode into a Go `string`. -/
def decodeString (v : JValue) (cur : GoString) : GoString × Option GoError :=
  match v with
  | JValue.string s => (s, none)
  | JValue.null => (cur, none)
  | JValue.bool _ => (cur, some (GoError.UnmarshalTypeError (lit "bool")))
  | JValue.number _ => (cur, some (GoError.UnmarshalTypeError (lit "number")))
  | JValue.array _ => (cur, some (GoError.UnmarshalTypeError (lit "array")))
  | JValue.object _ => (cur, some (GoError.UnmarshalTypeError (lit "object")))

/-- Decode into a Go `int` (64 bits wide). -/
def decodeInt (v : JValue) (cur : Int) : Int × Option GoError :=
  match v with
  | JValue.number literal =>
    match ParseInt literal with
    | some n => (n, none)
    | none => (cur, some (GoError.UnmarshalTypeError (lit "number " ++ literal)))
  | JValue.null => (cur, none)
  | JValue.bool _ => (cur, some (GoError.UnmarshalTypeError (lit "bool")))
  | JValue.string _ => (cur, some (GoError.UnmarshalTypeError (lit "string")))
  | JValue.array _ => (cur, some (GoError.UnmarshalTypeError (lit "array")))
  | JValue.object _ => (cur, some (GoError.UnmarshalTypeError (lit "object")))

/-- Decode into a Go `bool`. -/
def decodeBool (v : JValue) (cur : Bool) : Bool × Option GoError :=
  match v with
  | JValue.bool b => (b, none)
  | JValue.null => (cur, none)
  | JValue.number _ => (cur, some (GoError.UnmarshalTypeError (lit "number")))
  | JValue.string _ => (cur, some (GoError.UnmarshalTypeError (lit "string")))
  | JValue.array _ => (cur, some (GoError.UnmarshalTypeError (lit "array")))
  | JValue.object _ => (cur, some (GoError.UnmarshalTypeError (lit "object")))

/-- The elements of a JSON array decoded in order, the i-th into the i-th element of the
current slice where there is one and into a zero value otherwise (the decoder reuses the
elements of the slice it is given). -/
def decodeElems {α : Type} (elem : JValue → α → α × Option GoError) (zero : α) :
    List JValue → List α → List α × Option GoError
  | [], _ => ([], none)
  | e :: es, old =>
    ((elem e (old.headD zero)).1 :: (decodeElems elem zero es old.tail).1,
      saveError (elem e (old.headD zero)).2 (decodeElems elem zero es old.tail).2)

/-- Decode into a Go slice: an array replaces the contents (an empty array gives an empty
non-nil slice), `null` gives the nil slice. -/
def decodeSlice {α : Type} (elem : JValue → α → α × Option GoError) (zero : α)
    (v : JValue) (cur : Slice α) : Slice α × Option GoError :=
  match v with
  | JValue.array es =>
    (Slice.mk (decodeElems elem zero es cur.toList).1, (decodeElems elem zero es cur.toList).2)
  | JValue.null => (Slice.nil, none)
  | JValue.bool _ => (cur, some (GoError.UnmarshalTypeError (lit "bool")))
  | JValue.number _ => (cur, some (GoError.UnmarshalTypeError (lit "number")))
  | JValue.string _ => (cur, some (GoError.UnmarshalTypeError (lit "string")))
  | JValue.object _ => (cur, some (GoError.UnmarshalTypeError (lit "object")))

/-- The struct field an object key selects: the field whose name equals the key, else the
first field whose name matches it under case folding. -/
def findField (equalFold : GoString → GoString → Bool) (names : List GoString)
    (key : GoString) : Option Nat :=
  match names.indexOf? key with
  | some i => some i
  | none => names.findIdx? (fun name => equalFold name key)

/-- The members of a JSON object decoded in order into a struct with the field names `names`;
`field i` decodes into the i-th field. Keys that select no field are skipped. -/
def decodeMembers {σ : Type} (equalFold : GoString → GoString → Bool) (names : List GoString)
    (field : Nat → JValue → σ → σ × Option GoError) :
    List (GoString × JValue) → σ × Option GoError → σ × Option GoError
  | [], acc => acc
  | kv :: ms, acc =>
    match findField equalFold names kv.1 with
    | none => decodeMembers equalFold names field ms acc
    | some i =>
      decodeMembers equalFold names field ms
        ((field i kv.2 acc.1).1, saveError acc.2 (field i kv.2 acc.1).2)

/-- Decode into a Go struct. -/
def decodeStruct {σ : Type} (equalFold : GoString → GoString → Bool) (names : List GoString)
    (field : Nat → JValue → σ → σ × Option GoError) (v : JValue) (cur : σ) :
    σ × Option GoError :=
  match v with
  | JValue.object ms => decodeMembers equalFold names field ms (cur, none)
  | JValue.null => (cur, none)
  | JValue.bool _ => (cur, some (GoError.UnmarshalTypeError (lit "bool")))
  | JValue.number _ => (cur, some (GoError.UnmarshalTypeError (lit "number")))
  | JValue.string _ => (cur, some (GoError.UnmarshalTypeError (lit "string")))
  | JValue.array _ => (cur, some (GoError.UnmarshalTypeError (lit "array")))

/-- Go `json.Unmarshal(data, &v)` with the decoder `decode` of the type of `v`: a syntax
error leaves `v` untouched. -/
def Unmarshal {σ : Type} (decode : JValue → σ → σ × Option GoError) (data : GoString) (v : σ) :
    σ × Option GoError :=
  match parseJSON data with
  | none => (v, some GoError.SyntaxError)
  | some j => decode j v

/-! ### Decoders of the types of this package -/

def TextElement.decode (eq : GoString → GoString → Bool) : JValue → TextElement →
    TextElement × Option GoError :=
  decodeStruct eq [lit "content"] (fun i v c =>
    match i with
    | 0 => ({ c with Content := (decodeString v c.Content).1 }, (decodeString v c.Content).2)
    | _ => (c, none))

def LinkElement.decode (eq : GoString → GoString → Bool) : JValue → LinkElement →
    LinkElement × Option GoError :=
  decodeStruct eq [lit "title", lit "text", lit "messageUrl", lit "picUrl"] (fun i v c =>
    match i with
    | 0 => ({ c with Title := (decodeString v c.Title).1 }, (decodeString v c.Title).2)
    | 1 => ({ c with Text := (decodeString v c.Text).1 }, (decodeString v c.Text).2)
    | 2 => ({ c with MessageURL := (decodeString v c.MessageURL).1 },
            (decodeString v c.MessageURL).2)
    | 3 => ({ c with PictureURL := (decodeString v c.PictureURL).1 },
            (decodeString v c.PictureURL).2)
    | _ => (c, none))

def FeedLinkElement.decode (eq : GoString → GoString → Bool) : JValue → FeedLinkElement →
    FeedLinkElement × Option GoError :=
  decodeStruct eq [lit "title", lit "text", lit "messageURL", lit "picURL"] (fun i v c =>
    match i with
    | 0 => ({ c with Title := (decodeString v c.Title).1 }, (decodeString v c.Title).2)
    | 1 => ({ c with Text := (decodeString v c.Text).1 }, (decodeString v c.Text).2)
    | 2 => ({ c with MessageURL := (decodeString v c.MessageURL).1 },
            (decodeString v c.MessageURL).2)
    | 3 => ({ c with PictureURL := (decodeString v c.PictureURL).1 },
            (decodeString v c.PictureURL).2)
    | _ => (c, none))

def MarkdownElement.decode (eq : GoString → GoString → Bool) : JValue → MarkdownElement →
    MarkdownElement × Option GoError :=
  decodeStruct eq [lit "title", lit "text"] (fun i v c =>
    match i with
    | 0 => ({ c with Title := (decodeString v c.Title).1 }, (decodeString v c.Title).2)
    | 1 => ({ c with Text := (decodeString v c.Text).1 }, (decodeString v c.Text).2)
    | _ => (c, none))

def ButtonElement.decode (eq : GoString → GoString → Bool) : JValue → ButtonElement →
    ButtonElement × Option GoError :=
  decodeStruct eq [lit "title", lit "actionURL"] (fun i v c =>
    match i with
    | 0 => ({ c with Title := (decodeString v c.Title).1 }, (decodeString v c.Title).2)
    | 1 => ({ c with ActionURL := (decodeString v c.ActionURL).1 },
            (decodeString v c.ActionURL).2)
    | _ => (c, none))

def ActionCardElement.decode (eq : GoString → GoString → Bool) : JValue → ActionCardElement →
    ActionCardElement × Option GoError :=
  decodeStruct eq
    [lit "title", lit "text", lit "singleTitle", lit "singleURL", lit "btnOrientation",
     lit "hideAvatar", lit "btns"] (fun i v c =>
    match i with
    | 0 => ({ c with Title := (decodeString v c.Title).1 }, (decodeString v c.Title).2)
    | 1 => ({ c with Text := (decodeString v c.Text).1 }, (decodeString v c.Text).2)
    | 2 => ({ c with SingleTitle := (decodeString v c.SingleTitle).1 },
            (decodeString v c.SingleTitle).2)
    | 3 => ({ c with SingleURL := (decodeString v c.SingleURL).1 },
            (decodeString v c.SingleURL).2)
    | 4 => ({ c with ButtonOrientation := (decodeString v c.ButtonOrientation).1 },
            (decodeString v c.ButtonOrientation).2)
    | 5 => ({ c with Avatar := (decodeString v c.Avatar).1 }, (decodeString v c.Avatar).2)
    | 6 => ({ c with
              Buttons := (decodeSlice (ButtonElement.decode eq) ButtonElement.zero v c.Buttons).1 },
            (decodeSlice (ButtonElement.decode eq) ButtonElement.zero v c.Buttons).2)
    | _ => (c, none))

def FeedCardElement.decode (eq : GoString → GoString → Bool) : JValue → FeedCardElement →
    FeedCardElement × Option GoError :=
  decodeStruct eq [lit "links"] (fun i v c =>
    match i with
    | 0 => ({ c with
              Links := (decodeSlice (FeedLinkElement.decode eq) FeedLinkElement.zero v c.Links).1 },
            (decodeSlice (FeedLinkElement.decode eq) FeedLinkElement.zero v c.Links).2)
    | _ => (c, none))

def AtElement.decode (eq : GoString → GoString → Bool) : JValue → AtElement →
    AtElement × Option GoError :=
  decodeStruct eq [lit "atMobiles", lit "isAtAll"] (fun i v c =>
    match i with
    | 0 => ({ c with AtMobiles := (decodeSlice decodeString [] v c.AtMobiles).1 },
            (decodeSlice decodeString [] v c.AtMobiles).2)
    | 1 => ({ c with IsAtAll := (decodeBool v c.IsAtAll).1 }, (decodeBool v c.IsAtAll).2)
    | _ => (c, none))

def DingMessage.decode (eq : GoString → GoString → Bool) : JValue → DingMessage →
    DingMessage × Option GoError :=
  decodeStruct eq
    [lit "msgtype", lit "text", lit "link", lit "markdown", lit "actionCard", lit "feedCard",
     lit "at"] (fun i v c =>
    match i with
    | 0 => ({ c with Type_ := (decodeString v c.Type_).1 }, (decodeString v c.Type_).2)
    | 1 => ({ c with Text := (TextElement.decode eq v c.Text).1 },
            (TextElement.decode eq v c.Text).2)
    | 2 => ({ c with Link := (LinkElement.decode eq v c.Link).1 },
            (LinkElement.decode eq v c.Link).2)
    | 3 => ({ c with Markdown := (MarkdownElement.decode eq v c.Markdown).1 },
            (MarkdownElement.decode eq v c.Markdown).2)
    | 4 => ({ c with ActionCard := (ActionCardElement.decode eq v c.ActionCard).1 },
            (ActionCardElement.decode eq v c.ActionCard).2)
    | 5 => ({ c with FeedCard := (FeedCardElement.decode eq v c.FeedCard).1 },
            (FeedCardElement.decode eq v c.FeedCard).2)
    | 6 => ({ c with At := (AtElement.decode eq v c.At).1 }, (AtElement.decode eq v c.At).2)
    | _ => (c, none))

/-! ## The transport client (lines 159-162 and 176-198) -/

structure ret where
  ErrorCode : Int
  ErrorMessage : GoString
  deriving DecidableEq, Repr

/-- The value of `new(ret)`. -/
def ret.zero : ret := { ErrorCode := 0, ErrorMessage := [] }

/-- Decode a JSON value into the i-th field of a `ret`. -/
def ret.field (i : Nat) (v : JValue) (c : ret) : ret × Option GoError :=
  match i with
  | 0 => ({ c with ErrorCode := (decodeInt v c.ErrorCode).1 }, (decodeInt v c.ErrorCode).2)
  | 1 => ({ c with ErrorMessage := (decodeString v c.ErrorMessage).1 },
          (decodeString v c.ErrorMessage).2)
  | _ => (c, none)

def ret.decode (eq : GoString → GoString → Bool) : JValue → ret → ret × Option GoError :=
  decodeStruct eq [lit "errcode", lit "errmsg"] ret.field

/-- An HTTP response as far as `SendMessage` uses it: `Body` is what `ioutil.ReadAll`
returns for the body, the bytes read and the read error. -/
structure Response where
  StatusCode : Int
  Body : GoString × Option GoError
  deriving DecidableEq, Repr

/-- Go `ioutil.ReadAll(resp.Body)`. -/
def ReadAll (body : GoString × Option GoError) : GoString × Option GoError := body

/-- The network: `Post url contentType body` is the outcome of `http.Post`, a response or a
transport error. -/
structure Network where
  Post : GoString → GoString → GoString → Except GoError Response

/-- `DingRobot.SendMessage`: `none` is the nil error. -/
def DingRobot.SendMessage (net : Network) (eq : GoString → GoString → Bool) (dr : DingRobot)
    (msg : DingMessage) : Option GoError :=
  match Marshal msg with
  | (_, some err) => some err
  | (body, none) =>
    match net.Post dr.SendURL JSONType body with
    | Except.error err => some err
    | Except.ok resp =>
      match ReadAll resp.Body with
      | (_, some err) => some err
      | (body1, none) =>
        match Unmarshal (ret.decode eq) body1 ret.zero with
        | (_, some err) => some err
        | (r, none) => if r.ErrorCode ≠ 0 then some (errorsNew r.ErrorMessage) else none

/-- Case folding restricted to ASCII letters: one admissible instance of the key matching
rule. -/
def asciiEqualFold (name key : GoString) : Bool :=
  name.map (fun c => if 0x61 ≤ c.val ∧ c.val ≤ 0x7A then c.val - 0x20 else c.val)
    == key.map (fun c => if 0x61 ≤ c.val ∧ c.val ≤ 0x7A then c.val - 0x20 else c.val)

/-! ## Call sequences on the builders -/

/-- One setter call on a `MessageBuilder`, with its arguments. -/
inductive SetterCall where
  | Text (text : GoString)
  | Link (title text messageURL pictureURL : GoString)
  | Markdown (title text : GoString)
  | ActionCard (element : ActionCardElement)
  | FeedCard (element : FeedCardElement)
  | At (mobiles : Slice GoString) (isAtAll : Bool)
  deriving DecidableEq, Repr

/-- Perform one setter call. -/
def SetterCall.run (builder : MessageBuilder) : SetterCall → MessageBuilder
  | SetterCall.Text text => builder.Text text
  | SetterCall.Link title text messageURL pictureURL =>
      builder.Link title text messageURL pictureURL
  | SetterCall.Markdown title text => builder.Markdown title text
  | SetterCall.ActionCard element => builder.ActionCard element
  | SetterCall.FeedCard element => builder.FeedCard element
  | SetterCall.At mobiles isAtAll => builder.At mobiles isAtAll

/-- Perform a sequence of setter calls, first call first. -/
def runSetters (builder : MessageBuilder) (calls : List SetterCall) : MessageBuilder :=
  calls.foldl SetterCall.run builder

/-- The value given by the last call among `vals` (the values passed to one setter, in call
order), or `zero` when that setter was never called. -/
def lastOr {α : Type} (zero : α) : List α → α
  | [] => zero
  | a :: l => lastOr a l

/-- The `TextElement` a call sets, if it is a `Text` call. -/
def SetterCall.text? : SetterCall → Option TextElement
  | SetterCall.Text text => some { Content := text }
  | _ => none

/-- The `LinkElement` a call sets, if it is a `Link` call. -/
def SetterCall.link? : SetterCall → Option LinkElement
  | SetterCall.Link title text messageURL pictureURL =>
      some { Title := title, Text := text, MessageURL := messageURL, PictureURL := pictureURL }
  | _ => none

/-- The `MarkdownElement` a call sets, if it is a `Markdown` call. -/
def SetterCall.markdown? : SetterCall → Option MarkdownElement
  | SetterCall.Markdown title text => some { Title := title, Text := text }
  | _ => none

/-- The `ActionCardElement` a call sets, if it is an `ActionCard` call. -/
def SetterCall.actionCard? : SetterCall → Option ActionCardElement
  | SetterCall.ActionCard element => some element
  | _ => none

/-- The `FeedCardElement` a call sets, if it is a `FeedCard` call. -/
def SetterCall.feedCard? : SetterCall → Option FeedCardElement
  | SetterCall.FeedCard element => some element
  | _ => none

/-- The `AtElement` a call sets, if it is an `At` call. -/
def SetterCall.at? : SetterCall → Option AtElement
  | SetterCall.At mobiles isAtAll => some { AtMobiles := mobiles, IsAtAll := isAtAll }
  | _ => none

/-- One call on an `actionCardBuilder`. -/
inductive CardCall where
  | Button (title URL : GoString)
  | SingleButton (title URL : GoString)
  deriving DecidableEq, Repr

/-- Perform one call on an `actionCardBuilder`. -/
def CardCall.run (builder : actionCardBuilder) : CardCall → actionCardBuilder
  | CardCall.Button title URL => builder.Button title URL
  | CardCall.SingleButton title URL => builder.SingleButton title URL

/-- Perform a sequence of calls on an `actionCardBuilder`, first call first. -/
def runCardCalls (builder : actionCardBuilder) (calls : List CardCall) : actionCardBuilder :=
  calls.foldl CardCall.run builder

/-- The button a call appends, if it is a `Button` call. -/
def CardCall.button? : CardCall → Option ButtonElement
  | CardCall.Button title URL => some { Title := title, ActionURL := URL }
  | _ => none

/-- The `(SingleTitle, SingleURL)` pair a call sets, if it is a `SingleButton` call. -/
def CardCall.single? : CardCall → Option (GoString × GoString)
  | CardCall.SingleButton title URL => some (title, URL)
  | _ => none

/-- The feed link appended by `Link title messageURL pictureURL`. -/
def feedLinkOf (a : GoString × GoString × GoString) : FeedLinkElement :=
  { Title := a.1, Text := [], MessageURL := a.2.1, PictureURL := a.2.2 }

/-- Perform `Link` once per argument triple `(title, messageURL, pictureURL)`, in order. -/
def runLinks (builder : feedCardBuilder) (args : List (GoString × GoString × GoString)) :
    feedCardBuilder :=
  args.foldl (fun b a => b.Link a.1 a.2.1 a.2.2) builder

/-! ## The strings of a message -/

/-- Every string held by a `TextElement`. -/
def TextElement.strings (e : TextElement) : List GoString :=
  [e.Content]

/-- Every string held by a `LinkElement`. -/
def LinkElement.strings (e : LinkElement) : List GoString :=
  [e.Title, e.Text, e.MessageURL, e.PictureURL]

/-- Every string held by a `FeedLinkElement`. -/
def FeedLinkElement.strings (e : FeedLinkElement) : List GoString :=
  [e.Title, e.Text, e.MessageURL, e.PictureURL]

/-- Every string held by a `MarkdownElement`. -/
def MarkdownElement.strings (e : MarkdownElement) : List GoString :=
  [e.Title, e.Text]

/-- Every string held by a `ButtonElement`. -/
def ButtonElement.strings (e : ButtonElement) : List GoString :=
  [e.Title, e.ActionURL]

/-- Every string held by a `ActionCardElement`. -/
def ActionCardElement.strings (e : ActionCardElement) : List GoString :=
  [e.Title, e.Text, e.SingleTitle, e.SingleURL, e.ButtonOrientation, e.Avatar] ++ e.Buttons.toList.flatMap ButtonElement.strings

/-- Every string held by a `FeedCardElement`. -/
def FeedCardElement.strings (e : FeedCardElement) : List GoString :=
  e.Links.toList.flatMap FeedLinkElement.strings

/-- Every string held by a `AtElement`. -/
def AtElement.strings (e : AtElement) : List GoString :=
  e.AtMobiles.toList

/-- Every string held by a `DingMessage`. -/
def DingMessage.strings (e : DingMessage) : List GoString :=
  [e.Type_] ++ e.Text.strings ++ e.Link.strings ++ e.Markdown.strings ++ e.ActionCard.strings ++ e.FeedCard.strings ++ e.At.strings

/-- Go `utf8.ValidString` on every string of the message. -/
def DingMessage.ValidUTF8 (m : DingMessage) : Bool := m.strings.all ValidString

/-- A message with non-ASCII text, characters that the encoder escapes, two buttons, a feed
link and a mobile number. -/
def sampleMessage : DingMessage :=
  MessageBuilder.Build
    (MessageBuilder.At
      (MessageBuilder.FeedCard
        (MessageBuilder.ActionCard
          (MessageBuilder.Text (NewMessageBuilder TypeActionCard)
            (lit "第一个 \"链接\" <a&b>\n\t\\   end"))
          (((NewActionCardBuilder (lit "这是一个活动") (lit "活动啊活动啊") OrientationHorizon
              HideAvatar).Button (lit "b1") (lit "http://qq.com")).Button (lit "b2")
              (lit "http://qq.com/?a=1&b=2")).Build)
        ((NewFeedCardBuilder.Link (lit "第一个链接") (lit "http://qq.com")
            (lit "http://dl.bizhi.sogou.com/images/2012/03/14/124196.jpg")).Build))
      (Slice.mk [lit "13800000000"]) false)

/-! ## Observations on JSON values and a fixed network -/

/-- The keys of a JSON object in order; a value that is not an object has none. -/
def JValue.keys : JValue → List GoString
  | JValue.object ms => ms.map (fun kv => kv.1)
  | _ => []

/-- The value of the first member of an object with the given key. -/
def JValue.get? (key : GoString) : JValue → Option JValue
  | JValue.object ms => (ms.find? (fun kv => kv.1 == key)).map (fun kv => kv.2)
  | _ => none

/-- Whether a JSON value is `null`. -/
def JValue.isNull : JValue → Bool
  | JValue.null => true
  | _ => false

/-- The elements of a JSON array; a value that is not an array has none. -/
def JValue.elems : JValue → List JValue
  | JValue.array es => es
  | _ => []

/-- A network whose every `Post` is answered with the given status and body. -/
def Network.replying (status : Int) (body : GoString) : Network :=
  { Post := fun _ _ _ => Except.ok { StatusCode := status, Body := (body, none) } }

/-- A network whose every `Post` fails with the given transport error. -/
def Network.failing (err : GoError) : Network :=
  { Post := fun _ _ _ => Except.error err }

/-! ## Well-formed UTF-8 sequences -/

/-- The multi-byte sequences that `DecodeRune` accepts (two, three or four bytes within the
accept ranges of the first byte), with the rune each one encodes. -/
inductive Chunk : List Byte → Nat → Prop where
  | two (b b1 : Byte) (h0 : 0xC2 ≤ b.val) (h1 : b.val < 0xE0) (h2 : 0x80 ≤ b1.val)
      (h3 : b1.val ≤ 0xBF) : Chunk [b, b1] (b.val % 32 * 64 + b1.val % 64)
  | three (b b1 b2 : Byte) (h0 : 0xE0 ≤ b.val) (h1 : b.val < 0xF0)
      (h2 : 0x80 ≤ b1.val) (h3 : b1.val ≤ 0xBF) (h2a : b.val = 0xE0 → 0xA0 ≤ b1.val)
      (h3a : b.val = 0xED → b1.val ≤ 0x9F)
      (h4 : 0x80 ≤ b2.val) (h5 : b2.val ≤ 0xBF) :
      Chunk [b, b1, b2] (b.val % 16 * 4096 + b1.val % 64 * 64 + b2.val % 64)
  | four (b b1 b2 b3 : Byte) (h0 : 0xF0 ≤ b.val) (h1 : b.val ≤ 0xF4)
      (h2 : 0x80 ≤ b1.val) (h3 : b1.val ≤ 0xBF) (h2a : b.val = 0xF0 → 0x90 ≤ b1.val)
      (h3a : b.val = 0xF4 → b1.val ≤ 0x8F)
      (h4 : 0x80 ≤ b2.val) (h5 : b2.val ≤ 0xBF) (h6 : 0x80 ≤ b3.val) (h7 : b3.val ≤ 0xBF) :
      Chunk [b, b1, b2, b3]
        (b.val % 8 * 262144 + b1.val % 64 * 4096 + b2.val % 64 * 64 + b3.val % 64)

/-! ## Proof vocabulary for the string codec -/

/-- One iteration of the encoder loop, seen from the decoder: the scanner steps over the
written bytes `w`, and `unquoteAux` turns them back into the source bytes `c` in one step. -/
structure Step (w c : List Byte) : Prop where
  scan : ∀ X, scanString (w ++ X) = (scanString X).map (fun p => (w ++ p.1, p.2))
  unq : ∀ f X, unquoteAux (f + 1) (w ++ X) = (unquoteAux f X).map (fun t => c ++ t)
  len : c.length ≤ w.length

/-- The encoder output `out` for the source `s`, seen from the decoder: the scanner steps
over `out`, and `unquoteAux` turns it back into `s`. -/
structure Escaped (out s : List Byte) : Prop where
  scan : ∀ X, scanString (out ++ X) = (scanString X).map (fun p => (out ++ p.1, p.2))
  unq : ∀ f, s.length ≤ f → unquoteAux f out = some s
  len : s.length ≤ out.length

/-! ## Proof vocabulary for the value codec -/

/-- The encoding `bs` of the value `j` is read back as `j`, whatever follows it, at every
nesting depth that leaves room for `nd` more levels; and it starts with a byte that is
neither white space nor a closing bracket. -/
structure ParsesTo (nd : Nat) (bs : List Byte) (j : JValue) : Prop where
  parse : ∀ fuel depth rest, bs.length ≤ fuel → depth + nd ≤ maxNestingDepth →
    parseValue fuel depth (bs ++ rest) = some (j, rest)
  head : ∃ c r, bs = c :: r ∧ isSpace c = false ∧ c.val ≠ 0x5D

/-! ## Proof vocabulary for the fuel of the scanner -/

/-- The statement that fuel is irrelevant once it covers the consumed input, for a parser `p`
with results of type `α`. -/
def FuelFree {α : Type} (p : Nat → Nat → List Byte → Option (α × List Byte)) (f : Nat) : Prop :=
  ∀ d s v rest, p f d s = some (v, rest) →
    rest.length < s.length ∧ ∀ g, s.length - rest.length ≤ g → p g d s = some (v, rest)

/-! # Theorems -/

/-! ## Client construction -/

theorem base_split :
    BaseSendURL = lit "https://oapi.dingtalk.com/robot/send?access_token="
      ++ lit "\x7bACCESS_TOKEN\x7d" := by decide

theorem base_count : Count BaseSendURL (lit "\x7bACCESS_TOKEN\x7d") = 1 := by decide

theorem base_index : Index BaseSendURL (lit "\x7bACCESS_TOKEN\x7d") = 50 := by decide

/-- C4: for every access token (empty, or itself containing the placeholder text),
`NewRobot` stores the token and `SendURL` is the fixed endpoint followed by the token
verbatim; with `ABC123` the URL ends in `access_token=ABC123`. -/
theorem C4_NewRobot_url (tok : GoString) :
    (NewRobot tok).AccessToken = tok
    ∧ (NewRobot tok).SendURL
        = lit "https://oapi.dingtalk.com/robot/send?access_token=" ++ tok
    ∧ (NewRobot (lit "ABC123")).SendURL
        = lit "https://oapi.dingtalk.com/robot/send?access_token=ABC123" := by
  refine ⟨rfl, ?_, by decide⟩
  unfold NewRobot
  simp only
  unfold Replace
  by_cases h : lit "\x7bACCESS_TOKEN\x7d" = tok
  · simp only [h, true_or, if_true]
    rw [← h]; exact base_split
  · have h1 : ¬ (lit "\x7bACCESS_TOKEN\x7d" = tok ∨ (1 : Int) = 0) := by
      intro hh; rcases hh with hh | hh
      · exact h hh
      · exact absurd hh (by decide)
    rw [if_neg h1]
    simp only [base_count]
    have h2 : ¬ ((1 : Nat) = 0) := by decide
    rw [if_neg h2]
    have h3 : ¬ ((1 : Int) < 0 ∨ ((1 : Nat) : Int) < 1) := by decide
    rw [if_neg h3]
    have h4 : (1 : Int).toNat = 1 := by decide
    rw [h4]
    unfold replaceLoop
    simp only [base_index]
    have h5 : (lit "\x7bACCESS_TOKEN\x7d").isEmpty = false := by decide
    simp only [h5]
    unfold replaceLoop
    have h6 : BaseSendURL.take 50
        = lit "https://oapi.dingtalk.com/robot/send?access_token=" := by decide
    have h7 : BaseSendURL.drop (50 + (lit "\x7bACCESS_TOKEN\x7d").length) = [] := by
      decide
    have h8 : (50 : Int).toNat = 50 := by decide
    simp only [Bool.false_eq_true, if_false, h8, h6, h7, List.append_nil, List.append_assoc]

/-! ## Builders -/

theorem runSetters_fields (calls : List SetterCall) (b : MessageBuilder) :
    (runSetters b calls).message.Type_ = b.message.Type_
    ∧ (runSetters b calls).message.Text = lastOr b.message.Text (calls.filterMap SetterCall.text?)
    ∧ (runSetters b calls).message.Link = lastOr b.message.Link (calls.filterMap SetterCall.link?)
    ∧ (runSetters b calls).message.Markdown
        = lastOr b.message.Markdown (calls.filterMap SetterCall.markdown?)
    ∧ (runSetters b calls).message.ActionCard
        = lastOr b.message.ActionCard (calls.filterMap SetterCall.actionCard?)
    ∧ (runSetters b calls).message.FeedCard
        = lastOr b.message.FeedCard (calls.filterMap SetterCall.feedCard?)
    ∧ (runSetters b calls).message.At = lastOr b.message.At (calls.filterMap SetterCall.at?) := by
  induction calls generalizing b with
  | nil => simp [runSetters, lastOr]
  | cons c cs ih =>
    have hstep : runSetters b (c :: cs) = runSetters (c.run b) cs := rfl
    rw [hstep]
    obtain ⟨h0, h1, h2, h3, h4, h5, h6⟩ := ih (c.run b)
    rw [h0, h1, h2, h3, h4, h5, h6]
    cases c <;>
      simp [SetterCall.run, SetterCall.text?, SetterCall.link?, SetterCall.markdown?,
        SetterCall.actionCard?, SetterCall.feedCard?, SetterCall.at?, lastOr,
        MessageBuilder.Text, MessageBuilder.Link, MessageBuilder.Markdown,
        MessageBuilder.ActionCard, MessageBuilder.FeedCard, MessageBuilder.At]

/-- C2: for every message type and every sequence of setter calls on `NewMessageBuilder t`,
`Build` returns a message whose type is `t` and whose six elements are each the value of the
last call of their own setter, or the zero value if that setter was never called. -/
theorem C2_builder_last_call_wins (t : MessageType) (calls : List SetterCall) :
    ((runSetters (NewMessageBuilder t) calls).Build).Type_ = t
    ∧ ((runSetters (NewMessageBuilder t) calls).Build).Text
        = lastOr TextElement.zero (calls.filterMap SetterCall.text?)
    ∧ ((runSetters (NewMessageBuilder t) calls).Build).Link
        = lastOr LinkElement.zero (calls.filterMap SetterCall.link?)
    ∧ ((runSetters (NewMessageBuilder t) calls).Build).Markdown
        = lastOr MarkdownElement.zero (calls.filterMap SetterCall.markdown?)
    ∧ ((runSetters (NewMessageBuilder t) calls).Build).ActionCard
        = lastOr ActionCardElement.zero (calls.filterMap SetterCall.actionCard?)
    ∧ ((runSetters (NewMessageBuilder t) calls).Build).FeedCard
        = lastOr FeedCardElement.zero (calls.filterMap SetterCall.feedCard?)
    ∧ ((runSetters (NewMessageBuilder t) calls).Build).At
        = lastOr AtElement.zero (calls.filterMap SetterCall.at?) :=
  runSetters_fields calls (NewMessageBuilder t)

theorem runLinks_links (args : List (GoString × GoString × GoString)) (b : feedCardBuilder)
    (l : List FeedLinkElement) (hb : b.feedCard.Links = Slice.mk l) :
    (runLinks b args).feedCard.Links = Slice.mk (l ++ args.map feedLinkOf) := by
  induction args generalizing b l with
  | nil => simpa [runLinks] using hb
  | cons a as ih =>
    have hstep : runLinks b (a :: as) = runLinks (b.Link a.1 a.2.1 a.2.2) as := rfl
    rw [hstep, ih (b.Link a.1 a.2.1 a.2.2) (l ++ [feedLinkOf a])]
    · simp
    · simp [feedCardBuilder.Link, Slice.append, Slice.toList, feedLinkOf, hb]

/-- C5: `Link` called once per triple of `args`, in order, on `NewFeedCardBuilder` and then
`Build` gives a feed card whose `Links` holds exactly one entry per call, in call order, the
i-th entry carrying the i-th title, message URL and picture URL and an empty `Text`; the
three calls of `TestFeedCardBuilder` give three links in that order. -/
theorem C5_feedCard_links_in_call_order (args : List (GoString × GoString × GoString)) :
    ((runLinks NewFeedCardBuilder args).Build).Links = Slice.mk (args.map feedLinkOf)
    ∧ ((runLinks NewFeedCardBuilder args).Build).Links.len = args.length
    ∧ (∀ i (h : i < args.length),
        ((runLinks NewFeedCardBuilder args).Build).Links.toList[i]?
          = some { Title := args[i].1, Text := [], MessageURL := args[i].2.1,
                   PictureURL := args[i].2.2 })
    ∧ ((((NewFeedCardBuilder.Link (lit "第一个链接") (lit "http://qq.com")
            (lit "http://dl.bizhi.sogou.com/images/2012/03/14/124196.jpg")).Link
          (lit "第二个链接") (lit "http://qq.com")
            (lit "http://dl.bizhi.sogou.com/images/2012/03/14/124196.jpg")).Link
          (lit "第三个链接") (lit "http://qq.com")
            (lit "http://dl.bizhi.sogou.com/images/2012/03/14/124196.jpg")).Build).Links
        = Slice.mk
            [{ Title := lit "第一个链接", Text := [], MessageURL := lit "http://qq.com",
               PictureURL := lit "http://dl.bizhi.sogou.com/images/2012/03/14/124196.jpg" },
             { Title := lit "第二个链接", Text := [], MessageURL := lit "http://qq.com",
               PictureURL := lit "http://dl.bizhi.sogou.com/images/2012/03/14/124196.jpg" },
             { Title := lit "第三个链接", Text := [], MessageURL := lit "http://qq.com",
               PictureURL := lit "http://dl.bizhi.sogou.com/images/2012/03/14/124196.jpg" }] := by
  have h : ((runLinks NewFeedCardBuilder args).Build).Links = Slice.mk (args.map feedLinkOf) := by
    have := runLinks_links args NewFeedCardBuilder [] rfl
    simpa [feedCardBuilder.Build] using this
  refine ⟨h, ?_, ?_, rfl⟩
  · rw [h]; simp [Slice.len, Slice.toList]
  · intro i hi
    rw [h]
    simp [Slice.toList, List.getElem?_map, List.getElem?_eq_getElem hi, feedLinkOf]

/-- C5 at three concrete calls. -/
theorem C5_feedCard_links_in_call_order_witness :
    ((runLinks NewFeedCardBuilder
        [(lit "a", lit "u1", lit "p1"), (lit "b", lit "u2", lit "p2"),
         (lit "c", lit "u3", lit "p3")]).Build).Links.toList[1]?
      = some { Title := lit "b", Text := [], MessageURL := lit "u2", PictureURL := lit "p2" } :=
  (C5_feedCard_links_in_call_order
    [(lit "a", lit "u1", lit "p1"), (lit "b", lit "u2", lit "p2"),
     (lit "c", lit "u3", lit "p3")]).2.2.1 1 (by decide)

theorem runCardCalls_fields (calls : List CardCall) (b : actionCardBuilder)
    (l : List ButtonElement) (hb : b.actionCard.Buttons = Slice.mk l) :
    (runCardCalls b calls).actionCard.Buttons = Slice.mk (l ++ calls.filterMap CardCall.button?)
    ∧ ((runCardCalls b calls).actionCard.SingleTitle, (runCardCalls b calls).actionCard.SingleURL)
        = lastOr (b.actionCard.SingleTitle, b.actionCard.SingleURL)
            (calls.filterMap CardCall.single?)
    ∧ (runCardCalls b calls).actionCard.Title = b.actionCard.Title
    ∧ (runCardCalls b calls).actionCard.Text = b.actionCard.Text
    ∧ (runCardCalls b calls).actionCard.ButtonOrientation = b.actionCard.ButtonOrientation
    ∧ (runCardCalls b calls).actionCard.Avatar = b.actionCard.Avatar := by
  induction calls generalizing b l with
  | nil => simp [runCardCalls, lastOr, hb]
  | cons c cs ih =>
    have hstep : runCardCalls b (c :: cs) = runCardCalls (c.run b) cs := rfl
    rw [hstep]
    cases c with
    | Button title URL =>
      obtain ⟨h0, h1, h2, h3, h4, h5⟩ :=
        ih (b.Button title URL) (l ++ [{ Title := title, ActionURL := URL }])
          (by simp [actionCardBuilder.Button, Slice.append, Slice.toList, hb])
      simp only [CardCall.run]
      rw [h0, h1, h2, h3, h4, h5]
      simp [CardCall.button?, CardCall.single?, actionCardBuilder.Button]
    | SingleButton title URL =>
      obtain ⟨h0, h1, h2, h3, h4, h5⟩ :=
        ih (b.SingleButton title URL) l (by simp [actionCardBuilder.SingleButton, hb])
      simp only [CardCall.run]
      rw [h0, h1, h2, h3, h4, h5]
      simp [CardCall.button?, CardCall.single?, actionCardBuilder.SingleButton, lastOr]

/-- C6: for all constructor arguments and every interleaving of `Button` and `SingleButton`
calls on `NewActionCardBuilder`, `Build` returns an element whose `Buttons` is exactly the
list of buttons of the `Button` calls in call order (one per `Button` call),
whose `SingleTitle` and `SingleURL` are the arguments of the last `SingleButton` call (empty
if there is none), and whose `Title`, `Text`, `ButtonOrientation` and `Avatar` are the
constructor arguments. -/
theorem C6_actionCard_builder (title text : GoString) (o : Orientation) (a : AvatarState)
    (calls : List CardCall) :
    ((runCardCalls (NewActionCardBuilder title text o a) calls).Build).Buttons
        = Slice.mk (calls.filterMap CardCall.button?)
    ∧ ((runCardCalls (NewActionCardBuilder title text o a) calls).Build).Buttons.len
        = (calls.filter (fun c => (CardCall.button? c).isSome)).length
    ∧ (((runCardCalls (NewActionCardBuilder title text o a) calls).Build).SingleTitle,
        ((runCardCalls (NewActionCardBuilder title text o a) calls).Build).SingleURL)
        = lastOr ([], []) (calls.filterMap CardCall.single?)
    ∧ ((runCardCalls (NewActionCardBuilder title text o a) calls).Build).Title = title
    ∧ ((runCardCalls (NewActionCardBuilder title text o a) calls).Build).Text = text
    ∧ ((runCardCalls (NewActionCardBuilder title text o a) calls).Build).ButtonOrientation = o
    ∧ ((runCardCalls (NewActionCardBuilder title text o a) calls).Build).Avatar = a := by
  obtain ⟨h0, h1, h2, h3, h4, h5⟩ :=
    runCardCalls_fields calls (NewActionCardBuilder title text o a) [] rfl
  refine ⟨by simpa [actionCardBuilder.Build] using h0, ?_, h1, h2, h3, h4, h5⟩
  simp only [actionCardBuilder.Build, h0, List.nil_append, Slice.len, Slice.toList]
  clear h0 h1 h2 h3 h4 h5
  induction calls with
  | nil => rfl
  | cons c cs ih => cases c <;> simp [CardCall.button?, List.filterMap_cons, List.filter_cons, ih]

/-! ## The transport client -/

theorem SendMessage_of_decoded (net : Network) (eq : GoString → GoString → Bool)
    (dr : DingRobot) (msg : DingMessage) (resp : Response) (body : GoString) (r : ret)
    (hpost : net.Post dr.SendURL JSONType (Marshal msg).1 = Except.ok resp)
    (hread : ReadAll resp.Body = (body, none))
    (hparse : Unmarshal (ret.decode eq) body ret.zero = (r, none)) :
    dr.SendMessage net eq msg
      = if r.ErrorCode ≠ 0 then some (errorsNew r.ErrorMessage) else none := by
  simp only [Marshal] at hpost
  simp only [DingRobot.SendMessage, Marshal, hpost, hread, hparse]

theorem parse_ok_body :
    parseJSON (lit "\x7b\"errcode\":0,\"errmsg\":\"ok\"\x7d")
      = some (JValue.object [(lit "errcode", JValue.number (lit "0")),
                             (lit "errmsg", JValue.string (lit "ok"))]) := by
  rfl

theorem parse_token_invalid_body :
    parseJSON (lit "\x7b\"errcode\":300001,\"errmsg\":\"token invalid\"\x7d")
      = some (JValue.object [(lit "errcode", JValue.number (lit "300001")),
                             (lit "errmsg", JValue.string (lit "token invalid"))]) := by
  rfl

theorem findField_errcode (eq : GoString → GoString → Bool) :
    findField eq [lit "errcode", lit "errmsg"] (lit "errcode") = some 0 := by
  have h : [lit "errcode", lit "errmsg"].indexOf? (lit "errcode") = some 0 := by decide
  simp only [findField, h]

theorem findField_errmsg (eq : GoString → GoString → Bool) :
    findField eq [lit "errcode", lit "errmsg"] (lit "errmsg") = some 1 := by
  have h : [lit "errcode", lit "errmsg"].indexOf? (lit "errmsg") = some 1 := by decide
  simp only [findField, h]

/-- C1: when the POST and the read succeed and the response body decodes into
`ret` without error, `SendMessage` returns an error exactly when the decoded `errcode` is
not 0, that error is `errors.New(errmsg)` whose message is `errmsg`, and it returns nil when
`errcode` is 0; the HTTP status plays no part. The body with `errcode` 0 and `errmsg` ok
decodes to `(0, ok)` and the body with `errcode` 300001 to `(300001, token invalid)`. -/
theorem C1_SendMessage_classifies_by_errcode (net : Network)
    (eq : GoString → GoString → Bool) (dr : DingRobot) (msg : DingMessage) (resp : Response)
    (body : GoString) (r : ret)
    (hpost : net.Post dr.SendURL JSONType (Marshal msg).1 = Except.ok resp)
    (hread : ReadAll resp.Body = (body, none))
    (hparse : Unmarshal (ret.decode eq) body ret.zero = (r, none)) :
    ((dr.SendMessage net eq msg).isSome ↔ r.ErrorCode ≠ 0)
    ∧ (r.ErrorCode ≠ 0 →
        dr.SendMessage net eq msg = some (errorsNew r.ErrorMessage)
        ∧ (errorsNew r.ErrorMessage).Error = some r.ErrorMessage)
    ∧ (r.ErrorCode = 0 → dr.SendMessage net eq msg = none)
    ∧ Unmarshal (ret.decode eq) (lit "\x7b\"errcode\":0,\"errmsg\":\"ok\"\x7d") ret.zero
        = ({ ErrorCode := 0, ErrorMessage := lit "ok" }, none)
    ∧ Unmarshal (ret.decode eq)
          (lit "\x7b\"errcode\":300001,\"errmsg\":\"token invalid\"\x7d") ret.zero
        = ({ ErrorCode := 300001, ErrorMessage := lit "token invalid" }, none) := by
  have h := SendMessage_of_decoded net eq dr msg resp body r hpost hread hparse
  refine ⟨?_, ?_, ?_, ?_, ?_⟩
  · rw [h]; by_cases hc : r.ErrorCode = 0 <;> simp [hc]
  · intro hc; rw [h]; simp [hc, errorsNew, GoError.Error]
  · intro hc; rw [h]; simp [hc]
  · have hi : ParseInt (lit "0") = some 0 := by decide
    simp only [Unmarshal, parse_ok_body, ret.decode, ret.field, decodeStruct, decodeMembers,
      findField_errcode, findField_errmsg, decodeInt, decodeString, hi, saveError, ret.zero]
  · have hi : ParseInt (lit "300001") = some 300001 := by decide
    simp only [Unmarshal, parse_token_invalid_body, ret.decode, ret.field, decodeStruct,
      decodeMembers, findField_errcode, findField_errmsg, decodeInt, decodeString, hi, saveError,
      ret.zero]

/-- C1 at the response `errcode` 300001, `errmsg` token invalid, sent with HTTP status 200. -/
theorem C1_SendMessage_classifies_by_errcode_witness :
    (((NewRobot (lit "ABC123")).SendMessage
        (Network.replying 200 (lit "\x7b\"errcode\":300001,\"errmsg\":\"token invalid\"\x7d"))
        asciiEqualFold ((NewMessageBuilder TypeText).Text (lit "Hello")).Build).isSome
      ↔ (300001 : Int) ≠ 0)
    ∧ (NewRobot (lit "ABC123")).SendMessage
        (Network.replying 200 (lit "\x7b\"errcode\":300001,\"errmsg\":\"token invalid\"\x7d"))
        asciiEqualFold ((NewMessageBuilder TypeText).Text (lit "Hello")).Build
      = some (errorsNew (lit "token invalid")) :=
  have h := C1_SendMessage_classifies_by_errcode
    (Network.replying 200 (lit "\x7b\"errcode\":300001,\"errmsg\":\"token invalid\"\x7d"))
    asciiEqualFold (NewRobot (lit "ABC123")) ((NewMessageBuilder TypeText).Text (lit "Hello")).Build
    { StatusCode := 200,
      Body := (lit "\x7b\"errcode\":300001,\"errmsg\":\"token invalid\"\x7d", none) }
    (lit "\x7b\"errcode\":300001,\"errmsg\":\"token invalid\"\x7d")
    { ErrorCode := 300001, ErrorMessage := lit "token invalid" }
    rfl rfl (by decide)
  ⟨h.1, (h.2.1 (by decide)).1⟩

/-- C9: `SendMessage` returns the error of the first failing step and nil only when every step
passes. Serialization never fails; a failed POST returns that transport error whatever any
response would have been; after a successful POST a failed read returns the read error; after
a successful read a failed decode returns the decode error; after a successful decode a
non-zero `errcode` returns `errors.New(errmsg)` and a zero `errcode` returns nil; and a nil
result implies that the POST, the read and the decode succeeded with `errcode` 0. -/
theorem C9_SendMessage_first_failing_step (net : Network) (eq : GoString → GoString → Bool)
    (dr : DingRobot) (msg : DingMessage) :
    (Marshal msg).2 = none
    ∧ (∀ e, net.Post dr.SendURL JSONType (Marshal msg).1 = Except.error e →
        dr.SendMessage net eq msg = some e)
    ∧ (∀ resp data e, net.Post dr.SendURL JSONType (Marshal msg).1 = Except.ok resp →
        ReadAll resp.Body = (data, some e) → dr.SendMessage net eq msg = some e)
    ∧ (∀ resp body r e, net.Post dr.SendURL JSONType (Marshal msg).1 = Except.ok resp →
        ReadAll resp.Body = (body, none) →
        Unmarshal (ret.decode eq) body ret.zero = (r, some e) →
        dr.SendMessage net eq msg = some e)
    ∧ (∀ resp body r, net.Post dr.SendURL JSONType (Marshal msg).1 = Except.ok resp →
        ReadAll resp.Body = (body, none) →
        Unmarshal (ret.decode eq) body ret.zero = (r, none) →
        dr.SendMessage net eq msg
          = if r.ErrorCode ≠ 0 then some (errorsNew r.ErrorMessage) else none)
    ∧ (dr.SendMessage net eq msg = none →
        ∃ resp body r, net.Post dr.SendURL JSONType (Marshal msg).1 = Except.ok resp
          ∧ ReadAll resp.Body = (body, none)
          ∧ Unmarshal (ret.decode eq) body ret.zero = (r, none) ∧ r.ErrorCode = 0) := by
  refine ⟨rfl, ?_, ?_, ?_, ?_, ?_⟩
  · intro e hpost
    simp only [Marshal] at hpost
    simp only [DingRobot.SendMessage, Marshal, hpost]
  · intro resp data e hpost hread
    simp only [Marshal] at hpost
    simp only [DingRobot.SendMessage, Marshal, hpost, hread]
  · intro resp body r e hpost hread hparse
    simp only [Marshal] at hpost
    simp only [DingRobot.SendMessage, Marshal, hpost, hread, hparse]
  · intro resp body r hpost hread hparse
    exact SendMessage_of_decoded net eq dr msg resp body r hpost hread hparse
  · intro h
    simp only [DingRobot.SendMessage, Marshal] at h
    cases hpost : net.Post dr.SendURL JSONType msg.toJValue.encode with
    | error e => rw [hpost] at h; simp at h
    | ok resp =>
      rw [hpost] at h
      simp only at h
      rcases hread : ReadAll resp.Body with ⟨body, _ | e⟩
      · rw [hread] at h
        simp only at h
        rcases hparse : Unmarshal (ret.decode eq) body ret.zero with ⟨r, _ | e⟩
        · rw [hparse] at h
          simp only at h
          refine ⟨resp, body, r, hpost, hread, hparse, ?_⟩
          by_contra hc
          simp [hc] at h
        · rw [hparse] at h; simp at h
      · rw [hread] at h; simp at h

/-- C9 at a network that refuses the connection. -/
theorem C9_SendMessage_first_failing_step_witness :
    (NewRobot (lit "ABC123")).SendMessage
        (Network.failing (GoError.foreign (lit "connection refused"))) asciiEqualFold
        ((NewMessageBuilder TypeText).Text (lit "Hello")).Build
      = some (GoError.foreign (lit "connection refused")) :=
  (C9_SendMessage_first_failing_step
    (Network.failing (GoError.foreign (lit "connection refused"))) asciiEqualFold
    (NewRobot (lit "ABC123")) ((NewMessageBuilder TypeText).Text (lit "Hello")).Build).2.1
    (GoError.foreign (lit "connection refused")) rfl

theorem parse_empty_array : parseJSON (lit "[]") = some (JValue.array []) := by rfl

/-- C10 as stated fails: the body `[]` is valid JSON and has no `errcode` key, yet
`SendMessage` returns a type error; and the body with the key `ERRCODE` set to 1 has no
`errcode` key either, yet under ASCII case folding the key selects the field and
`SendMessage` returns `errors.New` of the `errmsg`. -/
theorem C10_missing_errcode_counterexample :
    (parseJSON (lit "[]")).isSome = true
    ∧ (parseJSON (lit "[]")).map JValue.keys = some []
    ∧ (NewRobot (lit "ABC123")).SendMessage (Network.replying 200 (lit "[]")) asciiEqualFold
          ((NewMessageBuilder TypeText).Text (lit "Hello")).Build
        = some (GoError.UnmarshalTypeError (lit "array"))
    ∧ (parseJSON (lit "\x7b\"ERRCODE\":1,\"errmsg\":\"bad\"\x7d")).map JValue.keys
        = some [lit "ERRCODE", lit "errmsg"]
    ∧ (NewRobot (lit "ABC123")).SendMessage
          (Network.replying 200 (lit "\x7b\"ERRCODE\":1,\"errmsg\":\"bad\"\x7d")) asciiEqualFold
          ((NewMessageBuilder TypeText).Text (lit "Hello")).Build
        = some (errorsNew (lit "bad")) := by
  refine ⟨by rfl, by rfl, by decide, by rfl, by decide⟩

theorem findField_ret_ne_zero (eq : GoString → GoString → Bool) (k : GoString)
    (h1 : k ≠ lit "errcode") (h2 : eq (lit "errcode") k = false) :
    findField eq [lit "errcode", lit "errmsg"] k ≠ some 0 := by
  have h1' : (lit "errcode" == k) = false := by
    simp only [beq_eq_false_iff_ne, ne_eq]
    exact fun h => h1 h.symm
  unfold findField
  simp only [List.indexOf?, List.findIdx?_cons, h1', h2, zero_add]
  by_cases h3 : (lit "errmsg" == k) = true
  · simp [h3]
  · have h3' : (lit "errmsg" == k) = false := by simpa using h3
    by_cases h4 : eq (lit "errmsg") k = true
    · simp [h3', h4, List.findIdx?_nil]
    · have h4' : eq (lit "errmsg") k = false := by simpa using h4
      simp [h3', h4', List.findIdx?_nil]

theorem ret_field_errcode (i : Nat) (hi : i ≠ 0) (v : JValue) (c : ret) :
    (ret.field i v c).1.ErrorCode = c.ErrorCode := by
  match i, hi with
  | 1, _ => rfl
  | _ + 2, _ => rfl

theorem decodeMembers_ret_errcode (eq : GoString → GoString → Bool)
    (ms : List (GoString × JValue)) (acc : ret × Option GoError)
    (hk : ∀ kv ∈ ms, kv.1 ≠ lit "errcode" ∧ eq (lit "errcode") kv.1 = false) :
    (decodeMembers eq [lit "errcode", lit "errmsg"] ret.field ms acc).1.ErrorCode
      = acc.1.ErrorCode := by
  induction ms generalizing acc with
  | nil => rfl
  | cons kv ms ih =>
    have hk' : ∀ kv1 ∈ ms, kv1.1 ≠ lit "errcode" ∧ eq (lit "errcode") kv1.1 = false :=
      fun kv1 h => hk kv1 (List.mem_cons_of_mem _ h)
    have h0 := findField_ret_ne_zero eq kv.1 (hk kv (List.mem_cons_self _ _)).1
      (hk kv (List.mem_cons_self _ _)).2
    unfold decodeMembers
    cases hf : findField eq [lit "errcode", lit "errmsg"] kv.1 with
    | none => simp only; exact ih acc hk'
    | some i =>
      simp only
      rw [ih _ hk']
      exact ret_field_errcode i (fun h => h0 (by rw [hf, h])) kv.2 acc.1

theorem ret_decode_errcode (eq : GoString → GoString → Bool) (j : JValue)
    (hk : ∀ k ∈ j.keys, k ≠ lit "errcode" ∧ eq (lit "errcode") k = false) :
    (ret.decode eq j ret.zero).1.ErrorCode = 0 := by
  cases j with
  | object ms =>
    simp only [ret.decode, decodeStruct]
    rw [decodeMembers_ret_errcode eq ms _ ?_]
    · rfl
    · intro kv hkv
      exact hk kv.1 (by simp only [JValue.keys, List.mem_map]; exact ⟨kv, hkv, rfl⟩)
  | _ => rfl

theorem parse_null : parseJSON (lit "null") = some JValue.null := by rfl

theorem parse_empty_object : parseJSON (lit "\x7b\x7d") = some (JValue.object []) := by rfl

theorem parse_errmsg_only :
    parseJSON (lit "\x7b\"errmsg\":\"bad\"\x7d")
      = some (JValue.object [(lit "errmsg", JValue.string (lit "bad"))]) := by rfl

/-- C10, amended: when the POST and the read succeed, the body is valid JSON that decodes
into `ret` without error, and no key of it is `errcode` or matches `errcode` under case
folding, `SendMessage` returns nil, whatever the `errmsg` and the HTTP status; in particular
the bodies of the empty object, of an object with only an `errmsg`, and `null` give nil
under every HTTP status. -/
theorem C10_no_errcode_key_is_success (net : Network) (eq : GoString → GoString → Bool)
    (dr : DingRobot) (msg : DingMessage) (resp : Response) (body : GoString) (j : JValue)
    (hpost : net.Post dr.SendURL JSONType (Marshal msg).1 = Except.ok resp)
    (hread : ReadAll resp.Body = (body, none))
    (hj : parseJSON body = some j)
    (hdec : (ret.decode eq j ret.zero).2 = none)
    (hk : ∀ k ∈ j.keys, k ≠ lit "errcode" ∧ eq (lit "errcode") k = false) :
    dr.SendMessage net eq msg = none
    ∧ (∀ status : Int,
        dr.SendMessage (Network.replying status (lit "\x7b\x7d")) eq msg = none
        ∧ dr.SendMessage (Network.replying status (lit "\x7b\"errmsg\":\"bad\"\x7d")) eq msg
            = none
        ∧ dr.SendMessage (Network.replying status (lit "null")) eq msg = none) := by
  constructor
  · have hparse : Unmarshal (ret.decode eq) body ret.zero
        = ((ret.decode eq j ret.zero).1, none) := by
      simp only [Unmarshal, hj]
      exact Prod.ext rfl hdec
    rw [SendMessage_of_decoded net eq dr msg resp body _ hpost hread hparse]
    simp [ret_decode_errcode eq j hk]
  · intro status
    refine ⟨?_, ?_, ?_⟩
    · simp only [DingRobot.SendMessage, Marshal, Network.replying, ReadAll, Unmarshal,
        parse_empty_object, ret.decode, decodeStruct, decodeMembers, ret.zero]
      simp
    · simp only [DingRobot.SendMessage, Marshal, Network.replying, ReadAll, Unmarshal,
        parse_errmsg_only, ret.decode, decodeStruct, decodeMembers, findField_errmsg,
        ret.field, decodeString, saveError, ret.zero]
      simp
    · simp only [DingRobot.SendMessage, Marshal, Network.replying, ReadAll, Unmarshal,
        parse_null, ret.decode, decodeStruct, ret.zero]
      simp

/-- C10, amended, at the body holding only `errmsg` bad, sent with HTTP status 500. -/
theorem C10_no_errcode_key_is_success_witness :
    (NewRobot (lit "ABC123")).SendMessage
        (Network.replying 500 (lit "\x7b\"errmsg\":\"bad\"\x7d")) asciiEqualFold
        ((NewMessageBuilder TypeText).Text (lit "Hello")).Build = none :=
  (C10_no_errcode_key_is_success
    (Network.replying 500 (lit "\x7b\"errmsg\":\"bad\"\x7d")) asciiEqualFold
    (NewRobot (lit "ABC123")) ((NewMessageBuilder TypeText).Text (lit "Hello")).Build
    { StatusCode := 500, Body := (lit "\x7b\"errmsg\":\"bad\"\x7d", none) }
    (lit "\x7b\"errmsg\":\"bad\"\x7d")
    (JValue.object [(lit "errmsg", JValue.string (lit "bad"))])
    rfl rfl parse_errmsg_only (by decide) (by decide)).1

/-! ## The wire request -/

/-- C3, at the message of `TestTextMessage`: the serialized message has all seven top-level
keys, but the slices that were never set are written as `null`: `actionCard.btns`,
`feedCard.links` and `at.atMobiles`. -/
theorem C3_unset_slices_serialize_as_null :
    (Marshal ((NewMessageBuilder TypeText).Text (lit "Hello")).Build).1
      = lit "\x7b\"msgtype\":\"text\",\"text\":\x7b\"content\":\"Hello\"\x7d,\"link\":\x7b\"title\":\"\",\"text\":\"\",\"messageUrl\":\"\",\"picUrl\":\"\"\x7d,\"markdown\":\x7b\"title\":\"\",\"text\":\"\"\x7d,\"actionCard\":\x7b\"title\":\"\",\"text\":\"\",\"singleTitle\":\"\",\"singleURL\":\"\",\"btnOrientation\":\"\",\"hideAvatar\":\"\",\"btns\":null\x7d,\"feedCard\":\x7b\"links\":null\x7d,\"at\":\x7b\"atMobiles\":null,\"isAtAll\":false\x7d\x7d"
    ∧ (((NewMessageBuilder TypeText).Text (lit "Hello")).Build).toJValue.keys
      = [lit "msgtype", lit "text", lit "link", lit "markdown", lit "actionCard",
         lit "feedCard", lit "at"]
    ∧ ((((NewMessageBuilder TypeText).Text (lit "Hello")).Build).toJValue.get?
          (lit "actionCard")).bind (JValue.get? (lit "btns")) = some JValue.null
    ∧ ((((NewMessageBuilder TypeText).Text (lit "Hello")).Build).toJValue.get?
          (lit "feedCard")).bind (JValue.get? (lit "links")) = some JValue.null
    ∧ ((((NewMessageBuilder TypeText).Text (lit "Hello")).Build).toJValue.get?
          (lit "at")).bind (JValue.get? (lit "atMobiles")) = some JValue.null := by
  refine ⟨by decide, by decide, by rfl, by rfl, by rfl⟩

theorem encode_bytes_FeedLinkElement (e : FeedLinkElement) :
    e.toJValue.encode
      = lit "\x7b\"title\":" ++ quote e.Title ++ lit ",\"text\":" ++ quote e.Text
          ++ lit ",\"messageURL\":" ++ quote e.MessageURL ++ lit ",\"picURL\":"
          ++ quote e.PictureURL ++ lit "\x7d" := by
  have q1 : quote (lit "title") = lit "\"title\"" := by decide
  have q2 : quote (lit "text") = lit "\"text\"" := by decide
  have q3 : quote (lit "messageURL") = lit "\"messageURL\"" := by decide
  have q4 : quote (lit "picURL") = lit "\"picURL\"" := by decide
  have r1 : lit "\x7b\"title\":" = 0x7B :: (lit "\"title\"" ++ [0x3A]) := by decide
  have r2 : lit ",\"text\":" = 0x2C :: (lit "\"text\"" ++ [0x3A]) := by decide
  have r3 : lit ",\"messageURL\":" = 0x2C :: (lit "\"messageURL\"" ++ [0x3A]) := by decide
  have r4 : lit ",\"picURL\":" = 0x2C :: (lit "\"picURL\"" ++ [0x3A]) := by decide
  have r5 : lit "\x7d" = [0x7D] := by decide
  simp only [FeedLinkElement.toJValue, JValue.encode, encodeMembers, q1, q2, q3, q4, r1, r2, r3,
    r4, r5, List.append_assoc, List.cons_append, List.nil_append]

theorem encode_bytes_LinkElement (e : LinkElement) :
    e.toJValue.encode
      = lit "\x7b\"title\":" ++ quote e.Title ++ lit ",\"text\":" ++ quote e.Text
          ++ lit ",\"messageUrl\":" ++ quote e.MessageURL ++ lit ",\"picUrl\":"
          ++ quote e.PictureURL ++ lit "\x7d" := by
  have q1 : quote (lit "title") = lit "\"title\"" := by decide
  have q2 : quote (lit "text") = lit "\"text\"" := by decide
  have q3 : quote (lit "messageUrl") = lit "\"messageUrl\"" := by decide
  have q4 : quote (lit "picUrl") = lit "\"picUrl\"" := by decide
  have r1 : lit "\x7b\"title\":" = 0x7B :: (lit "\"title\"" ++ [0x3A]) := by decide
  have r2 : lit ",\"text\":" = 0x2C :: (lit "\"text\"" ++ [0x3A]) := by decide
  have r3 : lit ",\"messageUrl\":" = 0x2C :: (lit "\"messageUrl\"" ++ [0x3A]) := by decide
  have r4 : lit ",\"picUrl\":" = 0x2C :: (lit "\"picUrl\"" ++ [0x3A]) := by decide
  have r5 : lit "\x7d" = [0x7D] := by decide
  simp only [LinkElement.toJValue, JValue.encode, encodeMembers, q1, q2, q3, q4, r1, r2, r3,
    r4, r5, List.append_assoc, List.cons_append, List.nil_append]

/-- C7 as stated fails: each entry of `feedCard.links` is written with four keys, `title`,
`text`, `messageURL` and `picURL`, not three; shown at the feed card of one `Link` call. -/
theorem C7_feed_link_keys_counterexample :
    (((NewFeedCardBuilder.Link (lit "a") (lit "http://qq.com") (lit "http://p")).Build).Links.toList.map
        (fun e => e.toJValue.keys))
      = [[lit "title", lit "text", lit "messageURL", lit "picURL"]]
    ∧ (((NewFeedCardBuilder.Link (lit "a") (lit "http://qq.com") (lit "http://p")).Build).Links.toList.map
        (fun e => e.toJValue.keys))
      ≠ [[lit "title", lit "messageURL", lit "picURL"]]
    ∧ ((FeedCardElement.toJValue
          ((NewFeedCardBuilder.Link (lit "a") (lit "http://qq.com") (lit "http://p")).Build)).encode)
      = lit "\x7b\"links\":[\x7b\"title\":\"a\",\"text\":\"\",\"messageURL\":\"http://qq.com\",\"picURL\":\"http://p\"\x7d]\x7d" := by
  refine ⟨by decide, by decide, by decide⟩

/-- C7, amended: in the serialized message the `link` member is the object of the message's
`LinkElement`, with exactly the keys `title`, `text`, `messageUrl`, `picUrl`; the `links`
member of `feedCard` is the array of the feed links in order, and every entry is an object
with exactly the keys `title`, `text`, `messageURL`, `picURL`; for a feed card produced by
the feed-card builder the `text` of every entry is the empty string. The last two parts give
the bytes written for the `link` object and for each feed link. -/
theorem C7_link_and_feed_link_keys (m : DingMessage) :
    m.toJValue.get? (lit "link") = some m.Link.toJValue
    ∧ m.Link.toJValue.keys = [lit "title", lit "text", lit "messageUrl", lit "picUrl"]
    ∧ (∀ b : MessageBuilder, ∀ title text messageURL pictureURL : GoString,
        ((b.Link title text messageURL pictureURL).Build).Link.toJValue
          = JValue.object
              [(lit "title", JValue.string title), (lit "text", JValue.string text),
               (lit "messageUrl", JValue.string messageURL),
               (lit "picUrl", JValue.string pictureURL)])
    ∧ (m.toJValue.get? (lit "feedCard")).bind (JValue.get? (lit "links"))
        = some (sliceToJValue FeedLinkElement.toJValue m.FeedCard.Links)
    ∧ (sliceToJValue FeedLinkElement.toJValue m.FeedCard.Links).elems
        = m.FeedCard.Links.toList.map FeedLinkElement.toJValue
    ∧ (∀ e ∈ m.FeedCard.Links.toList,
        e.toJValue.keys = [lit "title", lit "text", lit "messageURL", lit "picURL"])
    ∧ (∀ args : List (GoString × GoString × GoString),
        ∀ e ∈ ((runLinks NewFeedCardBuilder args).Build).Links.toList,
          e.toJValue
            = JValue.object
                [(lit "title", JValue.string e.Title), (lit "text", JValue.string []),
                 (lit "messageURL", JValue.string e.MessageURL),
                 (lit "picURL", JValue.string e.PictureURL)])
    ∧ m.Link.toJValue.encode
        = lit "\x7b\"title\":" ++ quote m.Link.Title ++ lit ",\"text\":" ++ quote m.Link.Text
            ++ lit ",\"messageUrl\":" ++ quote m.Link.MessageURL ++ lit ",\"picUrl\":"
            ++ quote m.Link.PictureURL ++ lit "\x7d"
    ∧ (∀ e ∈ m.FeedCard.Links.toList,
        e.toJValue.encode
          = lit "\x7b\"title\":" ++ quote e.Title ++ lit ",\"text\":" ++ quote e.Text
              ++ lit ",\"messageURL\":" ++ quote e.MessageURL ++ lit ",\"picURL\":"
              ++ quote e.PictureURL ++ lit "\x7d") := by
  have hk1 : (lit "msgtype" == lit "link") = false := by decide
  have hk2 : (lit "text" == lit "link") = false := by decide
  have hk3 : (lit "link" == lit "link") = true := by decide
  have hf1 : (lit "msgtype" == lit "feedCard") = false := by decide
  have hf2 : (lit "text" == lit "feedCard") = false := by decide
  have hf3 : (lit "link" == lit "feedCard") = false := by decide
  have hf4 : (lit "markdown" == lit "feedCard") = false := by decide
  have hf5 : (lit "actionCard" == lit "feedCard") = false := by decide
  have hf6 : (lit "feedCard" == lit "feedCard") = true := by decide
  have hl : (lit "links" == lit "links") = true := by decide
  refine ⟨?_, rfl, ?_, ?_, ?_, ?_, ?_, encode_bytes_LinkElement m.Link,
    fun e _ => encode_bytes_FeedLinkElement e⟩
  · simp only [DingMessage.toJValue, JValue.get?, List.find?, hk1, hk2, hk3, Option.map]
  · intro b title text messageURL pictureURL
    rfl
  · simp only [DingMessage.toJValue, JValue.get?, List.find?, hf1, hf2, hf3, hf4, hf5, hf6,
      Option.map, Option.bind, FeedCardElement.toJValue, hl]
  · cases m.FeedCard.Links <;> rfl
  · intro e _
    rfl
  · intro args e he
    have h := runLinks_links args NewFeedCardBuilder [] rfl
    simp only [feedCardBuilder.Build] at he
    rw [h] at he
    simp only [Slice.toList, List.nil_append, List.mem_map] at he
    obtain ⟨a, _, rfl⟩ := he
    rfl

/-- C7, amended, at the feed link of `sampleMessage`. -/
theorem C7_link_and_feed_link_keys_witness :
    (feedLinkOf (lit "第一个链接", lit "http://qq.com",
        lit "http://dl.bizhi.sogou.com/images/2012/03/14/124196.jpg")).toJValue.keys
      = [lit "title", lit "text", lit "messageURL", lit "picURL"] :=
  (C7_link_and_feed_link_keys sampleMessage).2.2.2.2.2.1
    (feedLinkOf (lit "第一个链接", lit "http://qq.com",
        lit "http://dl.bizhi.sogou.com/images/2012/03/14/124196.jpg"))
    (List.mem_singleton.2 rfl)

/-! ## UTF-8 -/

theorem byte_eq_ofNat (b : Byte) (n : Nat) (h : b.val = n) : (Fin.ofNat n : Byte) = b := by
  apply Fin.ext
  have := b.isLt
  simp [Fin.ofNat]
  omega

theorem Chunk.decode {c : List Byte} {r : Nat} (h : Chunk c r) (X : List Byte) :
    DecodeRune (c ++ X) = (r, c.length) := by
  cases h with
  | two b b1 h0 h1 h2 h3 =>
    simp only [List.cons_append, List.nil_append, DecodeRune, List.length_cons]
    have e1 : ¬ b.val < 0x80 := by omega
    have e2 : ¬ (b.val < 0xC2 ∨ 0xF4 < b.val) := by omega
    have e3 : ¬ b.val = 0xE0 := by omega
    have e4 : ¬ b.val = 0xF0 := by omega
    have e5 : ¬ b.val = 0xED := by omega
    have e6 : ¬ b.val = 0xF4 := by omega
    have e8 : ¬ (b1.val < 0x80 ∨ 0xBF < b1.val) := by omega
    simp [e1, e2, e3, e4, e5, e6, e8, h1]
  | three b b1 b2 h0 h1 h2 h3 h2a h3a h4 h5 =>
    simp only [List.cons_append, List.nil_append, DecodeRune, List.length_cons]
    have e1 : ¬ b.val < 0x80 := by omega
    have e2 : ¬ (b.val < 0xC2 ∨ 0xF4 < b.val) := by omega
    have e3 : ¬ b.val < 0xE0 := by omega
    have e4 : ¬ b.val = 0xF0 := by omega
    have e6 : ¬ b.val = 0xF4 := by omega
    have e8 : ¬ (b1.val < (if b.val = 0xE0 then 0xA0 else 0x80)
        ∨ (if b.val = 0xED then 0x9F else 0xBF) < b1.val) := by split_ifs <;> omega
    have e9 : ¬ (b2.val < 0x80 ∨ 0xBF < b2.val) := by omega
    simp only [e1, e2, e3, e4, e6, h1, if_false, if_true]
    simp [e8, e9]
  | four b b1 b2 b3 h0 h1 h2 h3 h2a h3a h4 h5 h6 h7 =>
    simp only [List.cons_append, List.nil_append, DecodeRune, List.length_cons]
    have e1 : ¬ b.val < 0x80 := by omega
    have e2 : ¬ (b.val < 0xC2 ∨ 0xF4 < b.val) := by omega
    have e3 : ¬ b.val < 0xE0 := by omega
    have e3' : ¬ b.val < 0xF0 := by omega
    have e4 : ¬ b.val = 0xE0 := by omega
    have e6 : ¬ b.val = 0xED := by omega
    have e8 : ¬ (b1.val < (if b.val = 0xF0 then 0x90 else 0x80)
        ∨ (if b.val = 0xF4 then 0x8F else 0xBF) < b1.val) := by split_ifs <;> omega
    have e9 : ¬ (b2.val < 0x80 ∨ 0xBF < b2.val) := by omega
    have e10 : ¬ (b3.val < 0x80 ∨ 0xBF < b3.val) := by omega
    simp only [e1, e2, e3, e3', e4, e6, if_false, if_true]
    simp [e8, e9, e10]

theorem Chunk.encode {c : List Byte} {r : Nat} (h : Chunk c r) : EncodeRune r = c := by
  cases h with
  | two b b1 h0 h1 h2 h3 =>
    unfold EncodeRune
    have e1 : ¬ (b.val % 32 * 64 + b1.val % 64 ≤ 0x7F) := by omega
    have e2 : b.val % 32 * 64 + b1.val % 64 ≤ 0x7FF := by omega
    simp only [e1, e2, if_false, if_true]
    rw [byte_eq_ofNat b _ (by omega), byte_eq_ofNat b1 _ (by omega)]
  | three b b1 b2 h0 h1 h2 h3 h2a h3a h4 h5 =>
    unfold EncodeRune
    have e1 : ¬ (b.val % 16 * 4096 + b1.val % 64 * 64 + b2.val % 64 ≤ 0x7F) := by
      omega
    have e2 : ¬ (b.val % 16 * 4096 + b1.val % 64 * 64 + b2.val % 64 ≤ 0x7FF) := by
      omega
    have e3 : ¬ (0x10FFFF < b.val % 16 * 4096 + b1.val % 64 * 64 + b2.val % 64
        ∨ (0xD800 ≤ b.val % 16 * 4096 + b1.val % 64 * 64 + b2.val % 64
          ∧ b.val % 16 * 4096 + b1.val % 64 * 64 + b2.val % 64 ≤ 0xDFFF)) := by
      omega
    have e4 : b.val % 16 * 4096 + b1.val % 64 * 64 + b2.val % 64 ≤ 0xFFFF := by omega
    simp only [e1, e2, e3, e4, if_false, if_true]
    rw [byte_eq_ofNat b _ (by omega), byte_eq_ofNat b1 _ (by omega),
      byte_eq_ofNat b2 _ (by omega)]
  | four b b1 b2 b3 h0 h1 h2 h3 h2a h3a h4 h5 h6 h7 =>
    unfold EncodeRune
    have e1 : ¬ (b.val % 8 * 262144 + b1.val % 64 * 4096 + b2.val % 64 * 64 + b3.val % 64
        ≤ 0x7F) := by omega
    have e2 : ¬ (b.val % 8 * 262144 + b1.val % 64 * 4096 + b2.val % 64 * 64 + b3.val % 64
        ≤ 0x7FF) := by omega
    have e3 : ¬ (0x10FFFF < b.val % 8 * 262144 + b1.val % 64 * 4096 + b2.val % 64 * 64
          + b3.val % 64
        ∨ (0xD800 ≤ b.val % 8 * 262144 + b1.val % 64 * 4096 + b2.val % 64 * 64 + b3.val % 64
          ∧ b.val % 8 * 262144 + b1.val % 64 * 4096 + b2.val % 64 * 64 + b3.val % 64
            ≤ 0xDFFF)) := by
      omega
    have e4 : ¬ (b.val % 8 * 262144 + b1.val % 64 * 4096 + b2.val % 64 * 64 + b3.val % 64
        ≤ 0xFFFF) := by omega
    simp only [e1, e2, e3, e4, if_false]
    rw [byte_eq_ofNat b _ (by omega), byte_eq_ofNat b1 _ (by omega),
      byte_eq_ofNat b2 _ (by omega), byte_eq_ofNat b3 _ (by omega)]

theorem DecodeRune_chunk (b : Byte) (t : List Byte) (hb : 0x80 ≤ b.val)
    (hv : ¬ ((DecodeRune (b :: t)).1 = RuneError ∧ (DecodeRune (b :: t)).2 = 1)) :
    ∃ c rest, b :: t = c ++ rest ∧ Chunk c (DecodeRune (b :: t)).1
      ∧ (DecodeRune (b :: t)).2 = c.length := by
  have e1 : ¬ b.val < 0x80 := by omega
  by_cases e2 : b.val < 0xC2 ∨ 0xF4 < b.val
  · exact absurd (by simp [DecodeRune, e1, e2]) hv
  by_cases r2 : b.val < 0xE0
  · -- two bytes
    rcases t with _ | ⟨b1, t1⟩
    · exact absurd (by simp [DecodeRune, e1, e2, r2]) hv
    have e3 : ¬ b.val = 0xE0 := by omega
    have e4 : ¬ b.val = 0xF0 := by omega
    have e5 : ¬ b.val = 0xED := by omega
    have e6 : ¬ b.val = 0xF4 := by omega
    by_cases e8 : b1.val < 0x80 ∨ 0xBF < b1.val
    · exact absurd (by simp [DecodeRune, e1, e2, r2, e3, e4, e5, e6, e8]) hv
    have hc : Chunk [b, b1] (b.val % 32 * 64 + b1.val % 64) :=
      Chunk.two b b1 (by omega) r2 (by omega) (by omega)
    have hd := hc.decode t1
    simp only [List.cons_append, List.nil_append] at hd
    refine ⟨[b, b1], t1, rfl, ?_, ?_⟩
    · rw [hd]; exact hc
    · rw [hd]
  by_cases r3 : b.val < 0xF0
  · rcases t with _ | ⟨b1, _ | ⟨b2, t2⟩⟩
    · exact absurd (by simp [DecodeRune, e1, e2, r2, r3]) hv
    · exact absurd (by simp [DecodeRune, e1, e2, r2, r3]) hv
    have e4 : ¬ b.val = 0xF0 := by omega
    have e6 : ¬ b.val = 0xF4 := by omega
    by_cases e8 : b1.val < (if b.val = 0xE0 then 0xA0 else 0x80)
        ∨ (if b.val = 0xED then 0x9F else 0xBF) < b1.val
    · exact absurd (by simp [DecodeRune, e1, e2, r2, r3, e4, e6, e8]) hv
    by_cases e9 : b2.val < 0x80 ∨ 0xBF < b2.val
    · exact absurd (by simp [DecodeRune, e1, e2, r2, r3, e4, e6, e8, e9]) hv
    have hc : Chunk [b, b1, b2] (b.val % 16 * 4096 + b1.val % 64 * 64 + b2.val % 64) :=
      Chunk.three b b1 b2 (by omega) r3 (by split_ifs at e8 <;> omega)
        (by split_ifs at e8 <;> omega) (by intro h; simp [h] at e8; omega)
        (by intro h; simp [h] at e8; omega) (by omega) (by omega)
    have hd := hc.decode t2
    simp only [List.cons_append, List.nil_append] at hd
    refine ⟨[b, b1, b2], t2, rfl, ?_, ?_⟩
    · rw [hd]; exact hc
    · rw [hd]
  · rcases t with _ | ⟨b1, _ | ⟨b2, _ | ⟨b3, t3⟩⟩⟩
    · exact absurd (by simp [DecodeRune, e1, e2, r2, r3]) hv
    · exact absurd (by simp [DecodeRune, e1, e2, r2, r3]) hv
    · exact absurd (by simp [DecodeRune, e1, e2, r2, r3]) hv
    have e4 : ¬ b.val = 0xE0 := by omega
    have e6 : ¬ b.val = 0xED := by omega
    by_cases e8 : b1.val < (if b.val = 0xF0 then 0x90 else 0x80)
        ∨ (if b.val = 0xF4 then 0x8F else 0xBF) < b1.val
    · exact absurd (by simp [DecodeRune, e1, e2, r2, r3, e4, e6, e8]) hv
    by_cases e9 : b2.val < 0x80 ∨ 0xBF < b2.val
    · exact absurd (by simp [DecodeRune, e1, e2, r2, r3, e4, e6, e8, e9]) hv
    by_cases e10 : b3.val < 0x80 ∨ 0xBF < b3.val
    · exact absurd (by simp [DecodeRune, e1, e2, r2, r3, e4, e6, e8, e9, e10]) hv
    have hc : Chunk [b, b1, b2, b3]
        (b.val % 8 * 262144 + b1.val % 64 * 4096 + b2.val % 64 * 64 + b3.val % 64) :=
      Chunk.four b b1 b2 b3 (by omega) (by omega) (by split_ifs at e8 <;> omega)
        (by split_ifs at e8 <;> omega) (by intro h; simp [h] at e8; omega)
        (by intro h; simp [h] at e8; omega) (by omega) (by omega) (by omega) (by omega)
    have hd := hc.decode t3
    simp only [List.cons_append, List.nil_append] at hd
    refine ⟨[b, b1, b2, b3], t3, rfl, ?_, ?_⟩
    · rw [hd]; exact hc
    · rw [hd]

theorem Chunk.high {c : List Byte} {r : Nat} (h : Chunk c r) : ∀ x ∈ c, 0x80 ≤ x.val := by
  cases h <;> simp <;> omega

theorem Chunk.length_pos {c : List Byte} {r : Nat} (h : Chunk c r) : 2 ≤ c.length := by
  cases h <;> simp

theorem Chunk.rune_ge {c : List Byte} {r : Nat} (h : Chunk c r) : 0x80 ≤ r := by
  cases h <;> omega

/-! ## String literals: the decoder inverts the encoder on valid UTF-8 -/

theorem scanString_plain (c : Byte) (X : List Byte) (h1 : c.val ≠ 0x22) (h2 : c.val ≠ 0x5C)
    (h3 : ¬ c.val < 0x20) :
    scanString (c :: X) = (scanString X).map (fun p => (c :: p.1, p.2)) := by
  conv_lhs => unfold scanString
  simp only [h1, h2, h3, if_false]
  cases scanString X <;> rfl

theorem unquoteAux_ascii (c : Byte) (f : Nat) (X : List Byte) (h1 : c.val ≠ 0x22)
    (h2 : c.val ≠ 0x5C) (h3 : ¬ c.val < 0x20) (h4 : c.val < 0x80) :
    unquoteAux (f + 1) (c :: X) = (unquoteAux f X).map (fun t => c :: t) := by
  conv_lhs => unfold unquoteAux
  simp [h1, h2, h3, h4]

theorem Step.safe (b : Byte) (hb : b.val < 0x80) (hs : htmlSafe b = true) : Step [b] [b] := by
  simp only [htmlSafe, Bool.and_eq_true, decide_eq_true_eq, bne_iff_ne, ne_eq] at hs
  obtain ⟨⟨⟨⟨⟨h1, h2⟩, _⟩, _⟩, _⟩, h6⟩ := hs
  refine ⟨fun X => ?_, fun f X => ?_, le_refl _⟩
  · exact scanString_plain b X h2 h6 (by omega)
  · exact unquoteAux_ascii b f X h2 h6 (by omega) hb

theorem hexVal_hex (n : Nat) (h : n < 16) : hexVal (hex n) = (n : Int) := by
  interval_cases n <;> rfl

theorem scanString_esc (e : Byte) (X : List Byte)
    (he : e.val = 0x62 ∨ e.val = 0x66 ∨ e.val = 0x6E ∨ e.val = 0x72 ∨ e.val = 0x74
            ∨ e.val = 0x5C ∨ e.val = 0x2F ∨ e.val = 0x22) :
    scanString (0x5C :: e :: X) = (scanString X).map (fun p => (0x5C :: e :: p.1, p.2)) := by
  conv_lhs => unfold scanString
  have h75 : e.val ≠ 0x75 := by omega
  simp only [Fin.coe_ofNat_eq_mod, Nat.reduceMod, Nat.reduceEqDiff, if_false, if_true, h75, he]
  cases scanString X <;> rfl

theorem scanString_u (h1 h2 h3 h4 : Byte) (X : List Byte)
    (e1 : 0 ≤ hexVal h1) (e2 : 0 ≤ hexVal h2) (e3 : 0 ≤ hexVal h3) (e4 : 0 ≤ hexVal h4) :
    scanString (0x5C :: 0x75 :: h1 :: h2 :: h3 :: h4 :: X)
      = (scanString X).map (fun p => (0x5C :: 0x75 :: h1 :: h2 :: h3 :: h4 :: p.1, p.2)) := by
  conv_lhs => unfold scanString
  simp only [Fin.coe_ofNat_eq_mod, Nat.reduceMod, Nat.reduceEqDiff, if_false, if_true,
    e1, e2, e3, e4, and_self]
  cases scanString X <;> rfl

theorem unquoteAux_u (h1 h2 h3 h4 : Byte) (f : Nat) (X : List Byte) (r : Nat)
    (e1 : 0 ≤ hexVal h1) (e2 : 0 ≤ hexVal h2) (e3 : 0 ≤ hexVal h3) (e4 : 0 ≤ hexVal h4)
    (hr : ((hexVal h1 * 16 + hexVal h2) * 16 + hexVal h3) * 16 + hexVal h4 = (r : Int))
    (hs : r < 0xD800 ∨ 0xE000 ≤ r) :
    unquoteAux (f + 1) (0x5C :: 0x75 :: h1 :: h2 :: h3 :: h4 :: X)
      = (unquoteAux f X).map (fun t => EncodeRune r ++ t) := by
  conv_lhs => unfold unquoteAux
  have hg : getu4 (0x5C :: 0x75 :: h1 :: h2 :: h3 :: h4 :: X) = (r : Int) := by
    simp only [getu4, Fin.coe_ofNat_eq_mod, Nat.reduceMod, e1, e2, e3, e4, and_self, if_true, hr]
  have hsur : IsSurrogate (r : Int) = false := by
    simp only [IsSurrogate, Bool.and_eq_false_iff, decide_eq_false_iff_not]
    omega
  have hneg : ¬ ((r : Int) < 0) := by omega
  simp only [Fin.coe_ofNat_eq_mod, Nat.reduceMod, Nat.reduceEqDiff, if_false, if_true, hg,
    hsur, hneg, List.drop_succ_cons, List.drop_zero, Int.toNat_ofNat, Bool.false_eq_true,
    false_or, or_false, or_self]

theorem encodeRune_ascii (b : Byte) (hb : b.val < 0x80) : EncodeRune b.val = [b] := by
  unfold EncodeRune
  have : b.val ≤ 0x7F := by omega
  simp only [this, if_true]
  rw [byte_eq_ofNat b _ rfl]

theorem Step.escaped (b : Byte) (hb : b.val < 0x80) (hs : htmlSafe b = false) :
    Step (escapeByte b) [b] := by
  unfold escapeByte
  split_ifs with h1 h2 h3 h4 h5 h6
  · refine ⟨fun X => ?_, fun f X => ?_, by simp⟩
    · exact scanString_esc b X (by omega)
    · simp only [List.cons_append, List.nil_append]
      conv_lhs => unfold unquoteAux
      have : b.val = 0x22 ∨ b.val = 0x5C ∨ b.val = 0x2F ∨ b.val = 0x27 := by omega
      simp only [Fin.coe_ofNat_eq_mod, Nat.reduceMod, if_true, this]
  · have hb8 : b = 0x08 := Fin.ext h2
    subst hb8
    refine ⟨fun X => scanString_esc _ X (by decide), fun f X => ?_, by simp⟩
    simp only [List.cons_append, List.nil_append]
    conv_lhs => unfold unquoteAux
    simp +decide only [Fin.coe_ofNat_eq_mod, Nat.reduceMod, if_true, if_false]
  · have hb8 : b = 0x0C := Fin.ext h3
    subst hb8
    refine ⟨fun X => scanString_esc _ X (by decide), fun f X => ?_, by simp⟩
    simp only [List.cons_append, List.nil_append]
    conv_lhs => unfold unquoteAux
    simp +decide only [Fin.coe_ofNat_eq_mod, Nat.reduceMod, if_true, if_false]
  · have hb8 : b = 0x0A := Fin.ext h4
    subst hb8
    refine ⟨fun X => scanString_esc _ X (by decide), fun f X => ?_, by simp⟩
    simp only [List.cons_append, List.nil_append]
    conv_lhs => unfold unquoteAux
    simp +decide only [Fin.coe_ofNat_eq_mod, Nat.reduceMod, if_true, if_false]
  · have hb8 : b = 0x0D := Fin.ext h5
    subst hb8
    refine ⟨fun X => scanString_esc _ X (by decide), fun f X => ?_, by simp⟩
    simp only [List.cons_append, List.nil_append]
    conv_lhs => unfold unquoteAux
    simp +decide only [Fin.coe_ofNat_eq_mod, Nat.reduceMod, if_true, if_false]
  · have hb8 : b = 0x09 := Fin.ext h6
    subst hb8
    refine ⟨fun X => scanString_esc _ X (by decide), fun f X => ?_, by simp⟩
    simp only [List.cons_append, List.nil_append]
    conv_lhs => unfold unquoteAux
    simp +decide only [Fin.coe_ofNat_eq_mod, Nat.reduceMod, if_true, if_false]
  · have hx1 : hexVal (hex (b.val / 16)) = ((b.val / 16 : Nat) : Int) :=
      hexVal_hex _ (by omega)
    have hx2 : hexVal (hex (b.val % 16)) = ((b.val % 16 : Nat) : Int) :=
      hexVal_hex _ (by omega)
    have h0 : hexVal (0x30 : Byte) = 0 := by decide
    refine ⟨fun X => ?_, fun f X => ?_, by simp⟩
    · exact scanString_u _ _ _ _ X (by decide) (by decide) (by rw [hx1]; omega)
        (by rw [hx2]; omega)
    · have := unquoteAux_u 0x30 0x30 (hex (b.val / 16)) (hex (b.val % 16)) f X b.val
        (by decide) (by decide) (by rw [hx1]; omega) (by rw [hx2]; omega)
        (by rw [hx1, hx2, h0]; omega) (by omega)
      rw [encodeRune_ascii b hb] at this
      exact this

theorem scanString_high (c : List Byte) (hc : ∀ x ∈ c, 0x80 ≤ x.val) (X : List Byte) :
    scanString (c ++ X) = (scanString X).map (fun p => (c ++ p.1, p.2)) := by
  induction c with
  | nil => simp only [List.nil_append]; cases scanString X <;> rfl
  | cons a c ih =>
    have ha := hc a (List.mem_cons_self _ _)
    rw [List.cons_append, scanString_plain a _ (by omega) (by omega) (by omega),
      ih (fun x hx => hc x (List.mem_cons_of_mem _ hx))]
    cases scanString X <;> rfl

theorem Step.raw {c : List Byte} {r : Nat} (h : Chunk c r) : Step c c := by
  refine ⟨scanString_high c h.high, fun f X => ?_, le_refl _⟩
  have hd := h.decode X
  have he := h.encode
  have hl := h.length_pos
  obtain ⟨a, c1, rfl⟩ : ∃ a c1, c = a :: c1 := by
    cases c with
    | nil => simp at hl
    | cons a c1 => exact ⟨a, c1, rfl⟩
  have ha := h.high a (List.mem_cons_self _ _)
  simp only [List.cons_append] at hd ⊢
  conv_lhs => unfold unquoteAux
  have e1 : ¬ a.val = 0x5C := by omega
  have e2 : ¬ (a.val = 0x22 ∨ a.val < 0x20) := by omega
  have e3 : ¬ a.val < 0x80 := by omega
  simp only [e1, e2, e3, if_false, hd, he]
  have : List.drop (a :: c1).length (a :: (c1 ++ X)) = X := by
    rw [← List.cons_append, List.drop_left]
  rw [this]
  rfl

theorem Step.separator {c : List Byte} {r : Nat} (h : Chunk c r)
    (hr : r = 0x2028 ∨ r = 0x2029) :
    Step [0x5C, 0x75, 0x32, 0x30, 0x32, hex (r % 16)] c := by
  have he := h.encode
  have hx : hexVal (hex (r % 16)) = ((r % 16 : Nat) : Int) := hexVal_hex _ (by omega)
  have h2 : hexVal (0x32 : Byte) = 2 := by decide
  have h0 : hexVal (0x30 : Byte) = 0 := by decide
  have hlen : c.length ≤ 6 := by cases h <;> simp
  refine ⟨fun X => ?_, fun f X => ?_, by simpa using hlen⟩
  · exact scanString_u _ _ _ _ X (by decide) (by decide) (by decide) (by rw [hx]; omega)
  · have := unquoteAux_u 0x32 0x30 0x32 (hex (r % 16)) f X r
      (by decide) (by decide) (by decide) (by rw [hx]; omega)
      (by rw [hx, h2, h0]; omega) (by omega)
    rw [he] at this
    exact this

theorem Escaped.nil : Escaped [] [] := by
  refine ⟨fun X => ?_, fun f _ => ?_, le_refl _⟩
  · simp only [List.nil_append]; cases scanString X <;> rfl
  · cases f <;> rfl

theorem Escaped.step {w c out s : List Byte} (hw : Step w c) (hc : 1 ≤ c.length)
    (ho : Escaped out s) : Escaped (w ++ out) (c ++ s) := by
  refine ⟨fun X => ?_, fun f hf => ?_, ?_⟩
  · rw [List.append_assoc, hw.scan, ho.scan]
    cases scanString X <;> simp
  · simp only [List.length_append] at hf
    obtain ⟨f1, rfl⟩ : ∃ f1, f = f1 + 1 := ⟨f - 1, by omega⟩
    rw [hw.unq, ho.unq f1 (by omega)]
    rfl
  · have := hw.len
    have := ho.len
    simp only [List.length_append]
    omega

theorem escapeAux_ok : ∀ (f : Nat) (s : GoString), s.length ≤ f → ValidAux f s = true →
    Escaped (escapeAux f s) s := by
  intro f
  induction f with
  | zero =>
    intro s hs _
    have : s = [] := List.length_eq_zero.mp (by omega)
    subst this
    exact Escaped.nil
  | succ f ih =>
    intro s hs hv
    cases s with
    | nil => exact Escaped.nil
    | cons b t =>
      simp only [List.length_cons] at hs
      by_cases hb : b.val < 0x80
      · have hd : DecodeRune (b :: t) = (b.val, 1) := by simp [DecodeRune, hb]
        have hv' : ValidAux f t = true := by
          unfold ValidAux at hv
          simp only [hd, RuneError] at hv
          have hne : ¬ b.val = 0xFFFD := by omega
          simpa [hne] using hv
        have hrec := ih t (by omega) hv'
        have hw : Step (if htmlSafe b then [b] else escapeByte b) [b] := by
          by_cases hs' : htmlSafe b = true
          · simp only [hs', if_true]; exact Step.safe b hb hs'
          · simp only [hs', if_false]
            exact Step.escaped b hb (by simpa using hs')
        have := Escaped.step hw (by simp) hrec
        simpa [escapeAux, hb] using this
      · have hv1 : ¬ ((DecodeRune (b :: t)).1 = RuneError ∧ (DecodeRune (b :: t)).2 = 1) := by
          intro h
          unfold ValidAux at hv
          simp [h] at hv
        obtain ⟨c, rest, hsplit, hc, hlen⟩ := DecodeRune_chunk b t (by omega) hv1
        have hcl := hc.length_pos
        have htake : (b :: t).take (DecodeRune (b :: t)).2 = c := by
          rw [hlen, hsplit, List.take_left]
        have hdrop : (b :: t).drop (DecodeRune (b :: t)).2 = rest := by
          rw [hlen, hsplit, List.drop_left]
        have hv' : ValidAux f rest = true := by
          unfold ValidAux at hv
          simp only [hv1, if_false, hdrop] at hv
          simpa using hv
        have hrl : rest.length ≤ f := by
          have := congrArg List.length hsplit
          simp only [List.length_cons, List.length_append] at this
          omega
        have hrec := ih rest hrl hv'
        have hout : escapeAux (f + 1) (b :: t)
            = (if (DecodeRune (b :: t)).1 = 0x2028 ∨ (DecodeRune (b :: t)).1 = 0x2029 then
                [0x5C, 0x75, 0x32, 0x30, 0x32, hex ((DecodeRune (b :: t)).1 % 16)] else c)
              ++ escapeAux f rest := by
          conv_lhs => unfold escapeAux
          simp only [hb, if_false, hv1, htake, hdrop]
          split_ifs <;> rfl
        rw [hout]
        conv => arg 2; rw [hsplit]
        refine Escaped.step ?_ (by omega) hrec
        by_cases hr : (DecodeRune (b :: t)).1 = 0x2028 ∨ (DecodeRune (b :: t)).1 = 0x2029
        · rw [if_pos hr]; exact Step.separator hc hr
        · rw [if_neg hr]; exact Step.raw hc

theorem skipSpace_nonspace (c : Byte) (r : List Byte) (h : isSpace c = false) :
    skipSpace (c :: r) = c :: r := by
  unfold skipSpace
  simp [h]

theorem parseValue_string (fuel depth : Nat) (r content rest : List Byte) (str : GoString)
    (hscan : scanString r = some (content, rest)) (hunq : unquote content = some str) :
    parseValue (fuel + 1) depth (0x22 :: r) = some (JValue.string str, rest) := by
  unfold parseValue
  rw [skipSpace_nonspace _ _ (by decide)]
  simp +decide only [hscan, hunq, Fin.coe_ofNat_eq_mod, Nat.reduceMod, if_false, if_true]

theorem quote_parses (s : GoString) (hv : ValidString s = true) (fuel depth : Nat)
    (rest : List Byte) :
    parseValue (fuel + 1) depth (quote s ++ rest) = some (JValue.string s, rest) := by
  have h := escapeAux_ok s.length s (le_refl _) hv
  have hscan : scanString (escapeAux s.length s ++ 0x22 :: rest)
      = some (escapeAux s.length s, rest) := by
    rw [h.scan]
    have : scanString (0x22 :: rest) = some ([], rest) := by
      unfold scanString
      simp +decide
    rw [this]
    simp
  have hunq : unquote (escapeAux s.length s) = some s := h.unq _ h.len
  unfold quote
  simp only [List.cons_append, List.append_assoc, List.singleton_append, List.nil_append]
  exact parseValue_string fuel depth _ _ rest s hscan hunq

/-! ## Values: the scanner reads back what the encoder writes -/

theorem ParsesTo.mono {nd nd1 : Nat} {bs : List Byte} {j : JValue} (h : ParsesTo nd bs j)
    (hle : nd ≤ nd1) : ParsesTo nd1 bs j :=
  ⟨fun fuel depth rest hf hd => h.parse fuel depth rest hf (by omega), h.head⟩

theorem ParsesTo.string (s : GoString) (hv : ValidString s = true) (nd : Nat) :
    ParsesTo nd (JValue.string s).encode (JValue.string s) := by
  rw [JValue.encode]
  refine ⟨fun fuel depth rest hf _ => ?_, ⟨0x22, escapeAux s.length s ++ [0x22],
    by simp [quote], by decide, by decide⟩⟩
  obtain ⟨f, rfl⟩ : ∃ f, fuel = f + 1 := ⟨fuel - 1, by simp [quote] at hf; omega⟩
  exact quote_parses s hv f depth rest

theorem ParsesTo.null (nd : Nat) : ParsesTo nd JValue.null.encode JValue.null := by
  rw [JValue.encode]
  refine ⟨fun fuel depth rest hf _ => ?_, ⟨0x6E, _, rfl, by decide, by decide⟩⟩
  obtain ⟨f, rfl⟩ : ∃ f, fuel = f + 1 := ⟨fuel - 1, by simp at hf; omega⟩
  simp only [List.cons_append, List.nil_append]
  unfold parseValue
  rw [skipSpace_nonspace _ _ (by decide)]
  simp +decide only [Fin.coe_ofNat_eq_mod, Nat.reduceMod, if_false, if_true]

theorem ParsesTo.bool (b : Bool) (nd : Nat) : ParsesTo nd (JValue.bool b).encode (JValue.bool b) := by
  rw [JValue.encode]
  cases b
  · refine ⟨fun fuel depth rest hf _ => ?_, ⟨0x66, _, rfl, by decide, by decide⟩⟩
    obtain ⟨f, rfl⟩ : ∃ f, fuel = f + 1 := ⟨fuel - 1, by simp at hf; omega⟩
    simp only [Bool.false_eq_true, if_false, List.cons_append, List.nil_append]
    unfold parseValue
    rw [skipSpace_nonspace _ _ (by decide)]
    simp +decide only [Fin.coe_ofNat_eq_mod, Nat.reduceMod, if_false, if_true]
  · refine ⟨fun fuel depth rest hf _ => ?_, ⟨0x74, _, rfl, by decide, by decide⟩⟩
    obtain ⟨f, rfl⟩ : ∃ f, fuel = f + 1 := ⟨fuel - 1, by simp at hf; omega⟩
    simp only [if_true, List.cons_append, List.nil_append]
    unfold parseValue
    rw [skipSpace_nonspace _ _ (by decide)]
    simp +decide only [Fin.coe_ofNat_eq_mod, Nat.reduceMod, if_false, if_true]

theorem quote_length (s : GoString) : 2 ≤ (quote s).length := by
  simp [quote]

theorem scan_quote (k : GoString) (hv : ValidString k = true) (rest : List Byte) :
    ∃ content, quote k ++ rest = 0x22 :: (content ++ 0x22 :: rest)
      ∧ scanString (content ++ 0x22 :: rest) = some (content, rest)
      ∧ unquote content = some k := by
  have h := escapeAux_ok k.length k (le_refl _) hv
  refine ⟨escapeAux k.length k, by simp [quote], ?_, h.unq _ h.len⟩
  rw [h.scan]
  have : scanString (0x22 :: rest) = some ([], rest) := by
    unfold scanString
    simp +decide
  rw [this]
  simp

/-- One member `"key":value` followed by `tail`, where the caller says how `tail` goes on. -/
theorem parseMembers_step (fuel depth : Nat) (k : GoString) (v : JValue) (enc tail : List Byte)
    (hk : ValidString k = true)
    (hv : parseValue fuel depth (enc ++ tail) = some (v, tail)) :
    parseMembers (fuel + 1) depth (quote k ++ 0x3A :: (enc ++ tail))
      = match skipSpace tail with
        | [] => none
        | c2 :: r2 =>
          if c2.val = 0x7D then some ([(k, v)], r2)
          else if c2.val = 0x2C then
            match parseMembers fuel depth r2 with
            | none => none
            | some (ms, rest2) => some ((k, v) :: ms, rest2)
          else none := by
  obtain ⟨content, hq, hscan, hunq⟩ := scan_quote k hk (0x3A :: (enc ++ tail))
  rw [hq]
  conv_lhs => unfold parseMembers
  rw [skipSpace_nonspace _ _ (by decide)]
  simp +decide only [Fin.coe_ofNat_eq_mod, Nat.reduceMod, if_true, hscan, hunq]
  rw [skipSpace_nonspace _ _ (by decide)]
  simp +decide only [Fin.coe_ofNat_eq_mod, Nat.reduceMod, if_true, hv]

theorem parseMembers_encode (nd : Nat) (ms : List (GoString × JValue)) (hne : ms ≠ [])
    (hk : ∀ kv ∈ ms, ValidString kv.1 = true)
    (hv : ∀ kv ∈ ms, ParsesTo nd kv.2.encode kv.2) :
    ∀ fuel depth rest, (encodeMembers ms).length ≤ fuel → depth + nd ≤ maxNestingDepth →
      parseMembers fuel depth (encodeMembers ms ++ 0x7D :: rest) = some (ms, rest) := by
  induction ms with
  | nil => exact absurd rfl hne
  | cons kv l ih =>
    intro fuel depth rest hf hd
    obtain ⟨k, x⟩ := kv
    have hkx := hk (k, x) (List.mem_cons_self _ _)
    have hvx : ParsesTo nd x.encode x := hv (k, x) (List.mem_cons_self _ _)
    have hql := quote_length k
    cases l with
    | nil =>
      rw [encodeMembers] at hf ⊢
      simp only [List.length_append, List.length_cons] at hf
      obtain ⟨f, rfl⟩ : ∃ f, fuel = f + 1 := ⟨fuel - 1, by omega⟩
      have hp := hvx.parse f depth (0x7D :: rest) (by omega) hd
      have := parseMembers_step f depth k x x.encode (0x7D :: rest) hkx hp
      simp only [List.append_assoc, List.cons_append] at this ⊢
      rw [this, skipSpace_nonspace _ _ (by decide)]
      simp +decide only [Fin.coe_ofNat_eq_mod, Nat.reduceMod, if_true]
    | cons kv2 l2 =>
      rw [encodeMembers] at hf ⊢
      simp only [List.length_append, List.length_cons] at hf
      obtain ⟨f, rfl⟩ : ∃ f, fuel = f + 1 := ⟨fuel - 1, by omega⟩
      have hp := hvx.parse f depth (0x2C :: (encodeMembers (kv2 :: l2) ++ 0x7D :: rest))
        (by omega) hd
      have := parseMembers_step f depth k x x.encode _ hkx hp
      simp only [List.append_assoc, List.cons_append] at this ⊢
      rw [this, skipSpace_nonspace _ _ (by decide)]
      have ih' := ih (by simp) (fun kv h => hk kv (List.mem_cons_of_mem _ h))
        (fun kv h => hv kv (List.mem_cons_of_mem _ h)) f depth rest (by omega) hd
      simp +decide only [Fin.coe_ofNat_eq_mod, Nat.reduceMod, if_true, if_false, ih']

theorem encodeMembers_head (ms : List (GoString × JValue)) (hne : ms ≠ []) :
    ∃ r, encodeMembers ms = 0x22 :: r := by
  cases ms with
  | nil => exact absurd rfl hne
  | cons kv l =>
    obtain ⟨k, x⟩ := kv
    cases l with
    | nil =>
      rw [encodeMembers]
      exact ⟨escapeAux k.length k ++ 0x22 :: 0x3A :: x.encode, by simp [quote]⟩
    | cons kv2 l2 =>
      rw [encodeMembers]
      exact ⟨escapeAux k.length k
        ++ 0x22 :: 0x3A :: (x.encode ++ 0x2C :: encodeMembers (kv2 :: l2)), by simp [quote]⟩

theorem ParsesTo.object (nd : Nat) (ms : List (GoString × JValue))
    (hk : ∀ kv ∈ ms, ValidString kv.1 = true)
    (hv : ∀ kv ∈ ms, ParsesTo nd kv.2.encode kv.2) :
    ParsesTo (nd + 1) (JValue.object ms).encode (JValue.object ms) := by
  rw [JValue.encode]
  refine ⟨fun fuel depth rest hf hd => ?_, ⟨0x7B, _, rfl, by decide, by decide⟩⟩
  simp only [List.length_cons, List.length_append, List.length_nil] at hf
  obtain ⟨f, rfl⟩ : ∃ f, fuel = f + 1 := ⟨fuel - 1, by omega⟩
  have hdepth : ¬ maxNestingDepth ≤ depth := by omega
  simp only [List.cons_append, List.append_assoc, List.nil_append]
  unfold parseValue
  rw [skipSpace_nonspace _ _ (by decide)]
  by_cases hne : ms = []
  · subst hne
    rw [encodeMembers]
    simp only [List.nil_append]
    rw [skipSpace_nonspace _ _ (by decide)]
    simp +decide only [Fin.coe_ofNat_eq_mod, Nat.reduceMod, if_true, if_false, hdepth]
  · obtain ⟨r, hr⟩ := encodeMembers_head ms hne
    have hp := parseMembers_encode nd ms hne hk hv f (depth + 1) rest (by omega) (by omega)
    rw [hr] at hp ⊢
    simp only [List.cons_append] at hp ⊢
    rw [skipSpace_nonspace _ _ (by decide)]
    simp +decide only [Fin.coe_ofNat_eq_mod, Nat.reduceMod, if_true, if_false, hdepth, hp]

theorem parseElems_encode (nd : Nat) (es : List JValue) (hne : es ≠ [])
    (hv : ∀ e ∈ es, ParsesTo nd e.encode e) :
    ∀ fuel depth rest, (encodeElems es).length + 1 ≤ fuel → depth + nd ≤ maxNestingDepth →
      parseElems fuel depth (encodeElems es ++ 0x5D :: rest) = some (es, rest) := by
  induction es with
  | nil => exact absurd rfl hne
  | cons x l ih =>
    intro fuel depth rest hf hd
    have hvx : ParsesTo nd x.encode x := hv x (List.mem_cons_self _ _)
    cases l with
    | nil =>
      rw [encodeElems] at hf ⊢
      obtain ⟨f, rfl⟩ : ∃ f, fuel = f + 1 := ⟨fuel - 1, by omega⟩
      have hp := hvx.parse f depth (0x5D :: rest) (by omega) hd
      unfold parseElems
      simp only [hp]
      rw [skipSpace_nonspace _ _ (by decide)]
      simp +decide only [Fin.coe_ofNat_eq_mod, Nat.reduceMod, if_true]
    | cons y l2 =>
      rw [encodeElems] at hf ⊢
      simp only [List.length_append, List.length_cons] at hf
      obtain ⟨f, rfl⟩ : ∃ f, fuel = f + 1 := ⟨fuel - 1, by omega⟩
      have hp := hvx.parse f depth (0x2C :: (encodeElems (y :: l2) ++ 0x5D :: rest))
        (by omega) hd
      have ih' := ih (by simp) (fun e h => hv e (List.mem_cons_of_mem _ h)) f depth rest
        (by omega) hd
      simp only [List.append_assoc, List.cons_append] at hp ⊢
      conv_lhs => unfold parseElems
      simp only [hp]
      rw [skipSpace_nonspace _ _ (by decide)]
      simp +decide only [Fin.coe_ofNat_eq_mod, Nat.reduceMod, if_true, if_false, ih']

theorem encodeElems_head (es : List JValue) (nd : Nat) (hne : es ≠ [])
    (hv : ∀ e ∈ es, ParsesTo nd e.encode e) :
    ∃ c r, encodeElems es = c :: r ∧ isSpace c = false ∧ c.val ≠ 0x5D := by
  cases es with
  | nil => exact absurd rfl hne
  | cons x l =>
    obtain ⟨c, r, hx, h1, h2⟩ := (hv x (List.mem_cons_self _ _)).head
    cases l with
    | nil => exact ⟨c, r, by rw [encodeElems, hx], h1, h2⟩
    | cons y l2 => exact ⟨c, _, by rw [encodeElems, hx]; rfl, h1, h2⟩

theorem ParsesTo.array (nd : Nat) (es : List JValue) (hv : ∀ e ∈ es, ParsesTo nd e.encode e) :
    ParsesTo (nd + 1) (JValue.array es).encode (JValue.array es) := by
  rw [JValue.encode]
  refine ⟨fun fuel depth rest hf hd => ?_, ⟨0x5B, _, rfl, by decide, by decide⟩⟩
  simp only [List.length_cons, List.length_append, List.length_nil] at hf
  obtain ⟨f, rfl⟩ : ∃ f, fuel = f + 1 := ⟨fuel - 1, by omega⟩
  have hdepth : ¬ maxNestingDepth ≤ depth := by omega
  simp only [List.cons_append, List.append_assoc, List.nil_append]
  unfold parseValue
  rw [skipSpace_nonspace _ _ (by decide)]
  by_cases hne : es = []
  · subst hne
    rw [encodeElems]
    simp only [List.nil_append]
    rw [skipSpace_nonspace _ _ (by decide)]
    simp +decide only [Fin.coe_ofNat_eq_mod, Nat.reduceMod, if_true, if_false, hdepth]
  · obtain ⟨c, r, hr, hc1, hc2⟩ := encodeElems_head es nd hne hv
    have hp := parseElems_encode nd es hne hv f (depth + 1) rest (by omega) (by omega)
    rw [hr] at hp ⊢
    simp only [List.cons_append] at hp ⊢
    rw [skipSpace_nonspace _ _ hc1]
    simp +decide only [Fin.coe_ofNat_eq_mod, Nat.reduceMod, if_true, if_false, hdepth, hp, hc2]

theorem ParsesTo.parseJSON {nd : Nat} {bs : List Byte} {j : JValue} (h : ParsesTo nd bs j)
    (hd : nd ≤ maxNestingDepth) : parseJSON bs = some j := by
  have := h.parse (bs.length + 1) 0 [] (by omega) (by omega)
  simp only [List.append_nil] at this
  simp [Ding.parseJSON, this, skipSpace]

/-! ## Messages: decoding inverts encoding -/

theorem findField_exact (eq : GoString → GoString → Bool) (names : List GoString)
    (key : GoString) (i : Nat) (h : names.indexOf? key = some i) :
    findField eq names key = some i := by
  simp only [findField, h]

theorem decodeElems_map {α : Type} (elem : JValue → α → α × Option GoError) (zero : α)
    (toJ : α → JValue) (h : ∀ e cur, elem (toJ e) cur = (e, none)) (l old : List α) :
    decodeElems elem zero (l.map toJ) old = (l, none) := by
  induction l generalizing old with
  | nil => rfl
  | cons a l ih => simp only [List.map_cons, decodeElems, h, ih, saveError]

theorem decodeSlice_toJValue {α : Type} (elem : JValue → α → α × Option GoError) (zero : α)
    (toJ : α → JValue) (h : ∀ e cur, elem (toJ e) cur = (e, none)) (sl cur : Slice α) :
    decodeSlice elem zero (sliceToJValue toJ sl) cur = (sl, none) := by
  cases sl with
  | nil => rfl
  | mk l => simp only [sliceToJValue, decodeSlice, decodeElems_map elem zero toJ h]

theorem sliceToJValue_parses {α : Type} (toJ : α → JValue) (nd : Nat) (sl : Slice α)
    (h : ∀ e ∈ sl.toList, ParsesTo nd (toJ e).encode (toJ e)) :
    ParsesTo (nd + 1) (sliceToJValue toJ sl).encode (sliceToJValue toJ sl) := by
  cases sl with
  | nil => exact ParsesTo.null _
  | mk l =>
    refine ParsesTo.array nd (l.map toJ) ?_
    intro e he
    obtain ⟨a, ha, rfl⟩ := List.mem_map.1 he
    exact h a ha

theorem decode_toJValue_TextElement (eq : GoString → GoString → Bool) (e cur : TextElement) :
    TextElement.decode eq e.toJValue cur = (e, none) := by
  have k0 := findField_exact eq
    [lit "content"]
    (lit "content") 0 (by decide)
  simp only [TextElement.decode, TextElement.toJValue, decodeStruct, decodeMembers, k0,
    decodeString, saveError]

theorem parses_TextElement (e : TextElement) (hv : ∀ s ∈ e.strings, ValidString s = true) :
    ParsesTo 1 e.toJValue.encode e.toJValue := by
  refine ParsesTo.object 0 _ ?_ ?_
  · intro kv hkv
    simp only [List.mem_cons, List.mem_singleton, List.not_mem_nil, or_false] at hkv
    rcases hkv with rfl
    dsimp only
    decide
  · intro kv hkv
    simp only [List.mem_cons, List.mem_singleton, List.not_mem_nil, or_false] at hkv
    rcases hkv with rfl
    · exact ParsesTo.string _ (hv _ (by simp [TextElement.strings])) 0

theorem decode_toJValue_LinkElement (eq : GoString → GoString → Bool) (e cur : LinkElement) :
    LinkElement.decode eq e.toJValue cur = (e, none) := by
  have k0 := findField_exact eq
    [lit "title", lit "text", lit "messageUrl", lit "picUrl"]
    (lit "title") 0 (by decide)
  have k1 := findField_exact eq
    [lit "title", lit "text", lit "messageUrl", lit "picUrl"]
    (lit "text") 1 (by decide)
  have k2 := findField_exact eq
    [lit "title", lit "text", lit "messageUrl", lit "picUrl"]
    (lit "messageUrl") 2 (by decide)
  have k3 := findField_exact eq
    [lit "title", lit "text", lit "messageUrl", lit "picUrl"]
    (lit "picUrl") 3 (by decide)
  simp only [LinkElement.decode, LinkElement.toJValue, decodeStruct, decodeMembers, k0, k1, k2, k3,
    decodeString, saveError]

theorem parses_LinkElement (e : LinkElement) (hv : ∀ s ∈ e.strings, ValidString s = true) :
    ParsesTo 1 e.toJValue.encode e.toJValue := by
  refine ParsesTo.object 0 _ ?_ ?_
  · intro kv hkv
    simp only [List.mem_cons, List.mem_singleton, List.not_mem_nil, or_false] at hkv
    rcases hkv with rfl | rfl | rfl | rfl <;> (dsimp only; decide)
  · intro kv hkv
    simp only [List.mem_cons, List.mem_singleton, List.not_mem_nil, or_false] at hkv
    rcases hkv with rfl | rfl | rfl | rfl
    · exact ParsesTo.string _ (hv _ (by simp [LinkElement.strings])) 0
    · exact ParsesTo.string _ (hv _ (by simp [LinkElement.strings])) 0
    · exact ParsesTo.string _ (hv _ (by simp [LinkElement.strings])) 0
    · exact ParsesTo.string _ (hv _ (by simp [LinkElement.strings])) 0

theorem decode_toJValue_FeedLinkElement (eq : GoString → GoString → Bool) (e cur : FeedLinkElement) :
    FeedLinkElement.decode eq e.toJValue cur = (e, none) := by
  have k0 := findField_exact eq
    [lit "title", lit "text", lit "messageURL", lit "picURL"]
    (lit "title") 0 (by decide)
  have k1 := findField_exact eq
    [lit "title", lit "text", lit "messageURL", lit "picURL"]
    (lit "text") 1 (by decide)
  have k2 := findField_exact eq
    [lit "title", lit "text", lit "messageURL", lit "picURL"]
    (lit "messageURL") 2 (by decide)
  have k3 := findField_exact eq
    [lit "title", lit "text", lit "messageURL", lit "picURL"]
    (lit "picURL") 3 (by decide)
  simp only [FeedLinkElement.decode, FeedLinkElement.toJValue, decodeStruct, decodeMembers, k0, k1, k2, k3,
    decodeString, saveError]

theorem parses_FeedLinkElement (e : FeedLinkElement) (hv : ∀ s ∈ e.strings, ValidString s = true) :
    ParsesTo 1 e.toJValue.encode e.toJValue := by
  refine ParsesTo.object 0 _ ?_ ?_
  · intro kv hkv
    simp only [List.mem_cons, List.mem_singleton, List.not_mem_nil, or_false] at hkv
    rcases hkv with rfl | rfl | rfl | rfl <;> (dsimp only; decide)
  · intro kv hkv
    simp only [List.mem_cons, List.mem_singleton, List.not_mem_nil, or_false] at hkv
    rcases hkv with rfl | rfl | rfl | rfl
    · exact ParsesTo.string _ (hv _ (by simp [FeedLinkElement.strings])) 0
    · exact ParsesTo.string _ (hv _ (by simp [FeedLinkElement.strings])) 0
    · exact ParsesTo.string _ (hv _ (by simp [FeedLinkElement.strings])) 0
    · exact ParsesTo.string _ (hv _ (by simp [FeedLinkElement.strings])) 0

theorem decode_toJValue_MarkdownElement (eq : GoString → GoString → Bool) (e cur : MarkdownElement) :
    MarkdownElement.decode eq e.toJValue cur = (e, none) := by
  have k0 := findField_exact eq
    [lit "title", lit "text"]
    (lit "title") 0 (by decide)
  have k1 := findField_exact eq
    [lit "title", lit "text"]
    (lit "text") 1 (by decide)
  simp only [MarkdownElement.decode, MarkdownElement.toJValue, decodeStruct, decodeMembers, k0, k1,
    decodeString, saveError]

theorem parses_MarkdownElement (e : MarkdownElement) (hv : ∀ s ∈ e.strings, ValidString s = true) :
    ParsesTo 1 e.toJValue.encode e.toJValue := by
  refine ParsesTo.object 0 _ ?_ ?_
  · intro kv hkv
    simp only [List.mem_cons, List.mem_singleton, List.not_mem_nil, or_false] at hkv
    rcases hkv with rfl | rfl <;> (dsimp only; decide)
  · intro kv hkv
    simp only [List.mem_cons, List.mem_singleton, List.not_mem_nil, or_false] at hkv
    rcases hkv with rfl | rfl
    · exact ParsesTo.string _ (hv _ (by simp [MarkdownElement.strings])) 0
    · exact ParsesTo.string _ (hv _ (by simp [MarkdownElement.strings])) 0

theorem decode_toJValue_ButtonElement (eq : GoString → GoString → Bool) (e cur : ButtonElement) :
    ButtonElement.decode eq e.toJValue cur = (e, none) := by
  have k0 := findField_exact eq
    [lit "title", lit "actionURL"]
    (lit "title") 0 (by decide)
  have k1 := findField_exact eq
    [lit "title", lit "actionURL"]
    (lit "actionURL") 1 (by decide)
  simp only [ButtonElement.decode, ButtonElement.toJValue, decodeStruct, decodeMembers, k0, k1,
    decodeString, saveError]

theorem parses_ButtonElement (e : ButtonElement) (hv : ∀ s ∈ e.strings, ValidString s = true) :
    ParsesTo 1 e.toJValue.encode e.toJValue := by
  refine ParsesTo.object 0 _ ?_ ?_
  · intro kv hkv
    simp only [List.mem_cons, List.mem_singleton, List.not_mem_nil, or_false] at hkv
    rcases hkv with rfl | rfl <;> (dsimp only; decide)
  · intro kv hkv
    simp only [List.mem_cons, List.mem_singleton, List.not_mem_nil, or_false] at hkv
    rcases hkv with rfl | rfl
    · exact ParsesTo.string _ (hv _ (by simp [ButtonElement.strings])) 0
    · exact ParsesTo.string _ (hv _ (by simp [ButtonElement.strings])) 0

theorem decode_toJValue_ActionCardElement (eq : GoString → GoString → Bool) (e cur : ActionCardElement) :
    ActionCardElement.decode eq e.toJValue cur = (e, none) := by
  have k0 := findField_exact eq
    [lit "title", lit "text", lit "singleTitle", lit "singleURL", lit "btnOrientation", lit "hideAvatar", lit "btns"]
    (lit "title") 0 (by decide)
  have k1 := findField_exact eq
    [lit "title", lit "text", lit "singleTitle", lit "singleURL", lit "btnOrientation", lit "hideAvatar", lit "btns"]
    (lit "text") 1 (by decide)
  have k2 := findField_exact eq
    [lit "title", lit "text", lit "singleTitle", lit "singleURL", lit "btnOrientation", lit "hideAvatar", lit "btns"]
    (lit "singleTitle") 2 (by decide)
  have k3 := findField_exact eq
    [lit "title", lit "text", lit "singleTitle", lit "singleURL", lit "btnOrientation", lit "hideAvatar", lit "btns"]
    (lit "singleURL") 3 (by decide)
  have k4 := findField_exact eq
    [lit "title", lit "text", lit "singleTitle", lit "singleURL", lit "btnOrientation", lit "hideAvatar", lit "btns"]
    (lit "btnOrientation") 4 (by decide)
  have k5 := findField_exact eq
    [lit "title", lit "text", lit "singleTitle", lit "singleURL", lit "btnOrientation", lit "hideAvatar", lit "btns"]
    (lit "hideAvatar") 5 (by decide)
  have k6 := findField_exact eq
    [lit "title", lit "text", lit "singleTitle", lit "singleURL", lit "btnOrientation", lit "hideAvatar", lit "btns"]
    (lit "btns") 6 (by decide)
  simp only [ActionCardElement.decode, ActionCardElement.toJValue, decodeStruct, decodeMembers, k0, k1, k2, k3, k4, k5, k6,
    decodeString, saveError,
    decodeSlice_toJValue (ButtonElement.decode eq) ButtonElement.zero ButtonElement.toJValue
      (decode_toJValue_ButtonElement eq)]

theorem parses_ActionCardElement (e : ActionCardElement) (hv : ∀ s ∈ e.strings, ValidString s = true) :
    ParsesTo 3 e.toJValue.encode e.toJValue := by
  refine ParsesTo.object 2 _ ?_ ?_
  · intro kv hkv
    simp only [List.mem_cons, List.mem_singleton, List.not_mem_nil, or_false] at hkv
    rcases hkv with rfl | rfl | rfl | rfl | rfl | rfl | rfl <;> (dsimp only; decide)
  · intro kv hkv
    simp only [List.mem_cons, List.mem_singleton, List.not_mem_nil, or_false] at hkv
    rcases hkv with rfl | rfl | rfl | rfl | rfl | rfl | rfl
    · exact ParsesTo.string _ (hv _ (by simp [ActionCardElement.strings])) 2
    · exact ParsesTo.string _ (hv _ (by simp [ActionCardElement.strings])) 2
    · exact ParsesTo.string _ (hv _ (by simp [ActionCardElement.strings])) 2
    · exact ParsesTo.string _ (hv _ (by simp [ActionCardElement.strings])) 2
    · exact ParsesTo.string _ (hv _ (by simp [ActionCardElement.strings])) 2
    · exact ParsesTo.string _ (hv _ (by simp [ActionCardElement.strings])) 2
    · refine sliceToJValue_parses ButtonElement.toJValue 1 _ ?_
      intro a ha
      refine (parses_ButtonElement a ?_).mono (by omega)
      intro s hs
      exact hv s (by simp only [ActionCardElement.strings, List.mem_append, List.mem_flatMap]; exact Or.inr ⟨a, ha, hs⟩)

theorem decode_toJValue_FeedCardElement (eq : GoString → GoString → Bool) (e cur : FeedCardElement) :
    FeedCardElement.decode eq e.toJValue cur = (e, none) := by
  have k0 := findField_exact eq
    [lit "links"]
    (lit "links") 0 (by decide)
  simp only [FeedCardElement.decode, FeedCardElement.toJValue, decodeStruct, decodeMembers, k0,
    decodeString, saveError,
    decodeSlice_toJValue (FeedLinkElement.decode eq) FeedLinkElement.zero FeedLinkElement.toJValue
      (decode_toJValue_FeedLinkElement eq)]

theorem parses_FeedCardElement (e : FeedCardElement) (hv : ∀ s ∈ e.strings, ValidString s = true) :
    ParsesTo 3 e.toJValue.encode e.toJValue := by
  refine ParsesTo.object 2 _ ?_ ?_
  · intro kv hkv
    simp only [List.mem_cons, List.mem_singleton, List.not_mem_nil, or_false] at hkv
    rcases hkv with rfl
    dsimp only
    decide
  · intro kv hkv
    simp only [List.mem_cons, List.mem_singleton, List.not_mem_nil, or_false] at hkv
    rcases hkv with rfl
    · refine sliceToJValue_parses FeedLinkElement.toJValue 1 _ ?_
      intro a ha
      refine (parses_FeedLinkElement a ?_).mono (by omega)
      intro s hs
      exact hv s (by simp only [FeedCardElement.strings, List.mem_append, List.mem_flatMap]; exact ⟨a, ha, hs⟩)

theorem decode_toJValue_AtElement (eq : GoString → GoString → Bool) (e cur : AtElement) :
    AtElement.decode eq e.toJValue cur = (e, none) := by
  have k0 := findField_exact eq
    [lit "atMobiles", lit "isAtAll"]
    (lit "atMobiles") 0 (by decide)
  have k1 := findField_exact eq
    [lit "atMobiles", lit "isAtAll"]
    (lit "isAtAll") 1 (by decide)
  simp only [AtElement.decode, AtElement.toJValue, decodeStruct, decodeMembers, k0, k1,
    decodeString, saveError,
    decodeSlice_toJValue decodeString [] JValue.string (fun _ _ => rfl),
    decodeBool]

theorem parses_AtElement (e : AtElement) (hv : ∀ s ∈ e.strings, ValidString s = true) :
    ParsesTo 2 e.toJValue.encode e.toJValue := by
  refine ParsesTo.object 1 _ ?_ ?_
  · intro kv hkv
    simp only [List.mem_cons, List.mem_singleton, List.not_mem_nil, or_false] at hkv
    rcases hkv with rfl | rfl <;> (dsimp only; decide)
  · intro kv hkv
    simp only [List.mem_cons, List.mem_singleton, List.not_mem_nil, or_false] at hkv
    rcases hkv with rfl | rfl
    · refine sliceToJValue_parses JValue.string 0 _ ?_
      intro a ha
      exact ParsesTo.string a (hv a (by simpa [AtElement.strings] using ha)) 0
    · exact ParsesTo.bool _ 1

theorem decode_toJValue_DingMessage (eq : GoString → GoString → Bool) (e cur : DingMessage) :
    DingMessage.decode eq e.toJValue cur = (e, none) := by
  have k0 := findField_exact eq
    [lit "msgtype", lit "text", lit "link", lit "markdown", lit "actionCard", lit "feedCard", lit "at"]
    (lit "msgtype") 0 (by decide)
  have k1 := findField_exact eq
    [lit "msgtype", lit "text", lit "link", lit "markdown", lit "actionCard", lit "feedCard", lit "at"]
    (lit "text") 1 (by decide)
  have k2 := findField_exact eq
    [lit "msgtype", lit "text", lit "link", lit "markdown", lit "actionCard", lit "feedCard", lit "at"]
    (lit "link") 2 (by decide)
  have k3 := findField_exact eq
    [lit "msgtype", lit "text", lit "link", lit "markdown", lit "actionCard", lit "feedCard", lit "at"]
    (lit "markdown") 3 (by decide)
  have k4 := findField_exact eq
    [lit "msgtype", lit "text", lit "link", lit "markdown", lit "actionCard", lit "feedCard", lit "at"]
    (lit "actionCard") 4 (by decide)
  have k5 := findField_exact eq
    [lit "msgtype", lit "text", lit "link", lit "markdown", lit "actionCard", lit "feedCard", lit "at"]
    (lit "feedCard") 5 (by decide)
  have k6 := findField_exact eq
    [lit "msgtype", lit "text", lit "link", lit "markdown", lit "actionCard", lit "feedCard", lit "at"]
    (lit "at") 6 (by decide)
  simp only [DingMessage.decode, DingMessage.toJValue, decodeStruct, decodeMembers, k0, k1, k2, k3, k4, k5, k6,
    decodeString, saveError,
    decode_toJValue_TextElement,
    decode_toJValue_LinkElement,
    decode_toJValue_MarkdownElement,
    decode_toJValue_ActionCardElement,
    decode_toJValue_FeedCardElement,
    decode_toJValue_AtElement]

theorem parses_DingMessage (e : DingMessage) (hv : ∀ s ∈ e.strings, ValidString s = true) :
    ParsesTo 4 e.toJValue.encode e.toJValue := by
  refine ParsesTo.object 3 _ ?_ ?_
  · intro kv hkv
    simp only [List.mem_cons, List.mem_singleton, List.not_mem_nil, or_false] at hkv
    rcases hkv with rfl | rfl | rfl | rfl | rfl | rfl | rfl <;> (dsimp only; decide)
  · intro kv hkv
    simp only [List.mem_cons, List.mem_singleton, List.not_mem_nil, or_false] at hkv
    rcases hkv with rfl | rfl | rfl | rfl | rfl | rfl | rfl
    · exact ParsesTo.string _ (hv _ (by simp [DingMessage.strings])) 3
    · refine (parses_TextElement _ ?_).mono (by omega)
      intro s hs
      exact hv s (by simp only [DingMessage.strings, List.mem_cons, List.mem_append]; tauto)
    · refine (parses_LinkElement _ ?_).mono (by omega)
      intro s hs
      exact hv s (by simp only [DingMessage.strings, List.mem_cons, List.mem_append]; tauto)
    · refine (parses_MarkdownElement _ ?_).mono (by omega)
      intro s hs
      exact hv s (by simp only [DingMessage.strings, List.mem_cons, List.mem_append]; tauto)
    · refine (parses_ActionCardElement _ ?_).mono (by omega)
      intro s hs
      exact hv s (by simp only [DingMessage.strings, List.mem_cons, List.mem_append]; tauto)
    · refine (parses_FeedCardElement _ ?_).mono (by omega)
      intro s hs
      exact hv s (by simp only [DingMessage.strings, List.mem_cons, List.mem_append]; tauto)
    · refine (parses_AtElement _ ?_).mono (by omega)
      intro s hs
      exact hv s (by simp only [DingMessage.strings, List.mem_cons, List.mem_append]; tauto)

theorem Unmarshal_Marshal (eq : GoString → GoString → Bool) (m cur : DingMessage)
    (hv : m.ValidUTF8 = true) :
    Unmarshal (DingMessage.decode eq) (Marshal m).1 cur = (m, none) := by
  have hs : ∀ s ∈ m.strings, ValidString s = true := by
    simpa [DingMessage.ValidUTF8, List.all_eq_true] using hv
  have hp : parseJSON m.toJValue.encode = some m.toJValue :=
    (parses_DingMessage m hs).parseJSON (by decide)
  simp only [Unmarshal, Marshal, hp, decode_toJValue_DingMessage]

/-- C8 as stated fails: a message whose text content ends in the byte `0xFF` (not valid
UTF-8) is serialized with that byte replaced by the escape of U+FFFD, and parsing the result
back gives a content ending in the three bytes of U+FFFD, not the original message. -/
theorem C8_roundtrip_counterexample :
    (Marshal ((NewMessageBuilder TypeText).Text [0x48, 0x69, 0xFF]).Build).1
      = lit "\x7b\"msgtype\":\"text\",\"text\":\x7b\"content\":\"Hi\\ufffd\"\x7d,\"link\":\x7b\"title\":\"\",\"text\":\"\",\"messageUrl\":\"\",\"picUrl\":\"\"\x7d,\"markdown\":\x7b\"title\":\"\",\"text\":\"\"\x7d,\"actionCard\":\x7b\"title\":\"\",\"text\":\"\",\"singleTitle\":\"\",\"singleURL\":\"\",\"btnOrientation\":\"\",\"hideAvatar\":\"\",\"btns\":null\x7d,\"feedCard\":\x7b\"links\":null\x7d,\"at\":\x7b\"atMobiles\":null,\"isAtAll\":false\x7d\x7d"
    ∧ (Unmarshal (DingMessage.decode asciiEqualFold)
        (Marshal ((NewMessageBuilder TypeText).Text [0x48, 0x69, 0xFF]).Build).1
        DingMessage.zero)
      = (((NewMessageBuilder TypeText).Text [0x48, 0x69, 0xEF, 0xBF, 0xBD]).Build, none)
    ∧ (Unmarshal (DingMessage.decode asciiEqualFold)
        (Marshal ((NewMessageBuilder TypeText).Text [0x48, 0x69, 0xFF]).Build).1
        DingMessage.zero)
      ≠ (((NewMessageBuilder TypeText).Text [0x48, 0x69, 0xFF]).Build, none) := by
  refine ⟨by decide, by decide, by decide⟩

/-- C8, amended: for every `DingMessage` all of whose strings are valid UTF-8 (the type and
every string of every element, button, feed link and mobile), serializing never fails, and
parsing the serialized bytes back into a `DingMessage`, whatever the target held before,
succeeds and yields the message itself; nil and empty slices are told apart. -/
theorem C8_roundtrip_valid_utf8 (eq : GoString → GoString → Bool) (m cur : DingMessage)
    (hv : m.ValidUTF8 = true) :
    (Marshal m).2 = none
    ∧ Unmarshal (DingMessage.decode eq) (Marshal m).1 cur = (m, none) :=
  ⟨rfl, Unmarshal_Marshal eq m cur hv⟩

/-- C8, amended, at `sampleMessage`. -/
theorem C8_roundtrip_valid_utf8_witness :
    Unmarshal (DingMessage.decode asciiEqualFold) (Marshal sampleMessage).1 DingMessage.zero
      = (sampleMessage, none) :=
  (C8_roundtrip_valid_utf8 asciiEqualFold sampleMessage DingMessage.zero (by decide)).2

/-! ## Fuel: the bounds on the recursion never cut a computation short -/

theorem skipSpace_length_le (s : List Byte) : (skipSpace s).length ≤ s.length := by
  induction s with
  | nil => simp [skipSpace]
  | cons c r ih =>
    unfold skipSpace
    split_ifs
    · simp only [List.length_cons]; omega
    · exact le_refl _

theorem scanString_length : ∀ (n : Nat) (r content rest : List Byte), r.length ≤ n →
    scanString r = some (content, rest) → rest.length < r.length := by
  intro n
  induction n with
  | zero =>
    intro r content rest hn h
    have : r = [] := List.length_eq_zero.mp (by omega)
    subst this
    simp [scanString] at h
  | succ n ih =>
    intro r content rest hn h
    unfold scanString at h
    split at h
    · simp at h
    · rename_i c r0
      simp only [List.length_cons] at hn ⊢
      split_ifs at h with h1 h2 h3
      · simp only [Option.some.injEq, Prod.mk.injEq] at h
        rw [← h.2]; omega
      · split at h
        · simp at h
        · rename_i e r1
          simp only [List.length_cons] at hn ⊢
          split_ifs at h with h4 h5
          · split at h
            · rename_i a1 a2 a3 a4 r2
              split_ifs at h with h7
              · cases hs : scanString r2 with
                | none => simp [hs] at h
                | some p =>
                  simp only [hs, Option.some.injEq, Prod.mk.injEq] at h
                  have := ih r2 p.1 p.2 (by simp only [List.length_cons] at hn; omega) hs
                  rw [← h.2]
                  simp only [List.length_cons]
                  omega
            · simp at h
          · cases hs : scanString r1 with
            | none => simp [hs] at h
            | some p =>
              simp only [hs, Option.some.injEq, Prod.mk.injEq] at h
              have := ih r1 p.1 p.2 (by omega) hs
              rw [← h.2]
              omega
      · cases hs : scanString r0 with
        | none => simp [hs] at h
        | some p =>
          simp only [hs, Option.some.injEq, Prod.mk.injEq] at h
          have := ih r0 p.1 p.2 (by omega) hs
          rw [← h.2]
          omega

theorem spanDigits_length (s : List Byte) : (spanDigits s).2.length ≤ s.length := by
  induction s with
  | nil => simp [spanDigits]
  | cons c r ih =>
    unfold spanDigits
    split_ifs
    · simp only [List.length_cons]; omega
    · exact le_refl _

theorem splitSign_length (p : Byte → Bool) (s : List Byte) :
    (splitSign p s).2.length ≤ s.length := by
  unfold splitSign
  split
  · split_ifs <;> simp
  · simp

theorem scanFrac_length (acc s lit1 rest : List Byte) (h : scanFrac acc s = some (lit1, rest)) :
    rest.length ≤ s.length := by
  unfold scanFrac at h
  split at h
  · rename_i c r
    split_ifs at h with h1 h2
    · simp only [Option.some.injEq, Prod.mk.injEq] at h
      rw [← h.2]
      have := spanDigits_length r
      simp only [List.length_cons]; omega
    · simp only [Option.some.injEq, Prod.mk.injEq] at h
      rw [← h.2]
  · simp only [Option.some.injEq, Prod.mk.injEq] at h
    rw [← h.2]

theorem scanExp_length (acc s lit1 rest : List Byte) (h : scanExp acc s = some (lit1, rest)) :
    rest.length ≤ s.length := by
  unfold scanExp at h
  split at h
  · rename_i c r
    split_ifs at h with h1 h2
    · simp only [Option.some.injEq, Prod.mk.injEq] at h
      rw [← h.2]
      have h3 := spanDigits_length (splitSign (fun d => d.val = 0x2B || d.val = 0x2D) r).2
      have h4 := splitSign_length (fun d => d.val = 0x2B || d.val = 0x2D) r
      simp only [List.length_cons]; omega
    · simp only [Option.some.injEq, Prod.mk.injEq] at h
      rw [← h.2]
  · simp only [Option.some.injEq, Prod.mk.injEq] at h
    rw [← h.2]

theorem scanFracExp_length (acc s lit1 rest : List Byte)
    (h : scanFracExp acc s = some (lit1, rest)) : rest.length ≤ s.length := by
  unfold scanFracExp at h
  cases hf : scanFrac acc s with
  | none => simp [hf] at h
  | some p =>
    simp only [hf] at h
    have h1 := scanFrac_length acc s p.1 p.2 hf
    have h2 := scanExp_length p.1 p.2 lit1 rest h
    omega

theorem scanNumber_length (s lit1 rest : List Byte) (h : scanNumber s = some (lit1, rest)) :
    rest.length < s.length := by
  unfold scanNumber at h
  have hsg := splitSign_length (fun c => c.val = 0x2D) s
  split at h
  · simp at h
  · rename_i c r heq
    rw [heq] at hsg
    simp only [List.length_cons] at hsg
    split_ifs at h with h1 h2
    · have := scanFracExp_length _ _ _ _ h
      omega
    · have := scanFracExp_length _ _ _ _ h
      have := spanDigits_length r
      omega

theorem parseValue_fuelFree (f : Nat) (hm : FuelFree parseMembers f) (he : FuelFree parseElems f) :
    FuelFree parseValue (f + 1) := by
  intro d s v rest h
  have hlen := skipSpace_length_le s
  cases hsk : skipSpace s with
  | nil => unfold parseValue at h; simp [hsk] at h
  | cons c r =>
    rw [hsk] at hlen
    simp only [List.length_cons] at hlen
    have hr := skipSpace_length_le r
    by_cases h7B : c.val = 0x7B
    · -- object
      unfold parseValue at h
      simp only [hsk, h7B, if_true] at h
      by_cases hd : maxNestingDepth ≤ d
      · simp [hd] at h
      simp only [hd, if_false] at h
      cases hsk1 : skipSpace r with
      | nil => simp [hsk1] at h
      | cons c1 r1 =>
        rw [hsk1] at hr
        simp only [List.length_cons] at hr
        simp only [hsk1] at h
        by_cases h7D : c1.val = 0x7D
        · simp only [h7D, if_true, Option.some.injEq, Prod.mk.injEq] at h
          obtain ⟨hv, hrest⟩ := h
          subst hrest
          refine ⟨by omega, fun g hg => ?_⟩
          obtain ⟨g1, rfl⟩ : ∃ g1, g = g1 + 1 := ⟨g - 1, by omega⟩
          unfold parseValue
          simp only [hsk, h7B, if_true, hd, if_false, hsk1, h7D, hv]
        · simp only [h7D, if_false] at h
          cases hp : parseMembers f (d + 1) (c1 :: r1) with
          | none => simp [hp] at h
          | some p =>
            obtain ⟨ms, rest1⟩ := p
            simp only [hp, Option.some.injEq, Prod.mk.injEq] at h
            obtain ⟨hv, hrest⟩ := h
            subst hrest
            obtain ⟨hl, hg1⟩ := hm (d + 1) (c1 :: r1) ms rest1 hp
            simp only [List.length_cons] at hl hg1
            refine ⟨by omega, fun g hg => ?_⟩
            obtain ⟨g1, rfl⟩ : ∃ g1, g = g1 + 1 := ⟨g - 1, by omega⟩
            unfold parseValue
            simp only [hsk, h7B, if_true, hd, if_false, hsk1, h7D, hg1 g1 (by omega), hv]
    by_cases h5B : c.val = 0x5B
    · -- array
      unfold parseValue at h
      simp +decide only [hsk, h7B, h5B, if_true, if_false] at h
      by_cases hd : maxNestingDepth ≤ d
      · simp [hd] at h
      simp +decide only [hd, if_false] at h
      cases hsk1 : skipSpace r with
      | nil => simp [hsk1] at h
      | cons c1 r1 =>
        rw [hsk1] at hr
        simp +decide only [List.length_cons] at hr
        simp +decide only [hsk1] at h
        by_cases h5D : c1.val = 0x5D
        · simp +decide only [h5D, if_true, Option.some.injEq, Prod.mk.injEq] at h
          obtain ⟨hv, hrest⟩ := h
          subst hrest
          refine ⟨by omega, fun g hg => ?_⟩
          obtain ⟨g1, rfl⟩ : ∃ g1, g = g1 + 1 := ⟨g - 1, by omega⟩
          unfold parseValue
          simp +decide only [hsk, h7B, h5B, if_true, hd, if_false, hsk1, h5D, hv]
        · simp +decide only [h5D, if_false] at h
          cases hp : parseElems f (d + 1) (c1 :: r1) with
          | none => simp [hp] at h
          | some p =>
            obtain ⟨es, rest1⟩ := p
            simp +decide only [hp, Option.some.injEq, Prod.mk.injEq] at h
            obtain ⟨hv, hrest⟩ := h
            subst hrest
            obtain ⟨hl, hg1⟩ := he (d + 1) (c1 :: r1) es rest1 hp
            simp +decide only [List.length_cons] at hl hg1
            refine ⟨by omega, fun g hg => ?_⟩
            obtain ⟨g1, rfl⟩ : ∃ g1, g = g1 + 1 := ⟨g - 1, by omega⟩
            unfold parseValue
            simp +decide only [hsk, h7B, h5B, if_true, hd, if_false, hsk1, h5D, hg1 g1 (by omega), hv]
    -- leaves: the result does not depend on the fuel
    have hleaf : ∀ g1, parseValue (g1 + 1) d s = parseValue (f + 1) d s := by
      intro g1
      conv_lhs => unfold parseValue
      conv_rhs => unfold parseValue
      simp only [hsk, h7B, h5B, if_false]
    have hl : rest.length < s.length := by
      unfold parseValue at h
      simp only [hsk, h7B, h5B, if_false] at h
      split_ifs at h with h1 h2 h3 h4 h5
      · cases hs : scanString r with
        | none => simp [hs] at h
        | some p =>
          obtain ⟨content, rest0⟩ := p
          simp only [hs] at h
          cases hu : unquote content with
          | none => simp [hu] at h
          | some str =>
            simp only [hu, Option.some.injEq, Prod.mk.injEq] at h
            have := scanString_length r.length r content rest0 (le_refl _) hs
            rw [← h.2]; omega
      · cases hs : scanNumber (c :: r) with
        | none => simp [hs] at h
        | some p =>
          obtain ⟨l, rest0⟩ := p
          simp only [hs, Option.some.injEq, Prod.mk.injEq] at h
          have := scanNumber_length (c :: r) l rest0 hs
          simp only [List.length_cons] at this
          rw [← h.2]; omega
      · split at h
        · split_ifs at h
          simp only [Option.some.injEq, Prod.mk.injEq] at h
          rw [← h.2]
          simp only [List.length_cons] at hlen
          omega
        · simp at h
      · split at h
        · split_ifs at h
          simp only [Option.some.injEq, Prod.mk.injEq] at h
          rw [← h.2]
          simp only [List.length_cons] at hlen
          omega
        · simp at h
      · split at h
        · split_ifs at h
          simp only [Option.some.injEq, Prod.mk.injEq] at h
          rw [← h.2]
          simp only [List.length_cons] at hlen
          omega
        · simp at h
    refine ⟨hl, fun g hg => ?_⟩
    obtain ⟨g1, rfl⟩ : ∃ g1, g = g1 + 1 := ⟨g - 1, by omega⟩
    rw [hleaf g1, h]

theorem parseMembers_fuelFree (f : Nat) (hv0 : FuelFree parseValue f)
    (hm : FuelFree parseMembers f) : FuelFree parseMembers (f + 1) := by
  intro d s ms rest h
  have hlen := skipSpace_length_le s
  unfold parseMembers at h
  cases hsk : skipSpace s with
  | nil => simp [hsk] at h
  | cons c r =>
    rw [hsk] at hlen
    simp +decide only [List.length_cons] at hlen
    simp +decide only [hsk] at h
    by_cases h22 : c.val = 0x22
    swap
    · simp [h22] at h
    simp +decide only [h22, if_true] at h
    cases hs : scanString r with
    | none => simp [hs] at h
    | some p =>
      obtain ⟨content, rest0⟩ := p
      simp +decide only [hs] at h
      have hl0 := scanString_length r.length r content rest0 (le_refl _) hs
      cases hu : unquote content with
      | none => simp [hu] at h
      | some key =>
        simp +decide only [hu] at h
        have hlen1 := skipSpace_length_le rest0
        cases hsk1 : skipSpace rest0 with
        | nil => simp [hsk1] at h
        | cons c1 r1 =>
          rw [hsk1] at hlen1
          simp +decide only [List.length_cons] at hlen1
          simp +decide only [hsk1] at h
          by_cases h3A : c1.val = 0x3A
          swap
          · simp [h3A] at h
          simp +decide only [h3A, if_true] at h
          cases hp : parseValue f d r1 with
          | none => simp [hp] at h
          | some p =>
            obtain ⟨v, rest1⟩ := p
            simp +decide only [hp] at h
            obtain ⟨hl1, hg1⟩ := hv0 d r1 v rest1 hp
            have hlen2 := skipSpace_length_le rest1
            cases hsk2 : skipSpace rest1 with
            | nil => simp [hsk2] at h
            | cons c2 r2 =>
              rw [hsk2] at hlen2
              simp +decide only [List.length_cons] at hlen2
              simp +decide only [hsk2] at h
              by_cases h7D : c2.val = 0x7D
              · simp +decide only [h7D, if_true, Option.some.injEq, Prod.mk.injEq] at h
                obtain ⟨hms, hrest⟩ := h
                subst hrest
                refine ⟨by omega, fun g hg => ?_⟩
                obtain ⟨g1, rfl⟩ : ∃ g1, g = g1 + 1 := ⟨g - 1, by omega⟩
                unfold parseMembers
                simp +decide only [hsk, h22, if_true, hs, hu, hsk1, h3A, hg1 g1 (by omega), hsk2, h7D,
                  hms]
              · simp +decide only [h7D, if_false] at h
                by_cases h2C : c2.val = 0x2C
                swap
                · simp [h2C] at h
                simp +decide only [h2C, if_true] at h
                cases hp2 : parseMembers f d r2 with
                | none => simp [hp2] at h
                | some p =>
                  obtain ⟨ms2, rest2⟩ := p
                  simp +decide only [hp2, Option.some.injEq, Prod.mk.injEq] at h
                  obtain ⟨hms, hrest⟩ := h
                  subst hrest
                  obtain ⟨hl2, hg2⟩ := hm d r2 ms2 rest2 hp2
                  refine ⟨by omega, fun g hg => ?_⟩
                  obtain ⟨g1, rfl⟩ : ∃ g1, g = g1 + 1 := ⟨g - 1, by omega⟩
                  unfold parseMembers
                  simp +decide only [hsk, h22, if_true, hs, hu, hsk1, h3A, hg1 g1 (by omega), hsk2, h7D,
                    if_false, h2C, hg2 g1 (by omega), hms]

theorem parseElems_fuelFree (f : Nat) (hv0 : FuelFree parseValue f)
    (he : FuelFree parseElems f) : FuelFree parseElems (f + 1) := by
  intro d s es rest h
  unfold parseElems at h
  cases hp : parseValue f d s with
  | none => simp [hp] at h
  | some p =>
    obtain ⟨v, rest1⟩ := p
    simp +decide only [hp] at h
    obtain ⟨hl1, hg1⟩ := hv0 d s v rest1 hp
    have hlen2 := skipSpace_length_le rest1
    cases hsk2 : skipSpace rest1 with
    | nil => simp [hsk2] at h
    | cons c2 r2 =>
      rw [hsk2] at hlen2
      simp +decide only [List.length_cons] at hlen2
      simp +decide only [hsk2] at h
      by_cases h5D : c2.val = 0x5D
      · simp +decide only [h5D, if_true, Option.some.injEq, Prod.mk.injEq] at h
        obtain ⟨hes, hrest⟩ := h
        subst hrest
        refine ⟨by omega, fun g hg => ?_⟩
        obtain ⟨g1, rfl⟩ : ∃ g1, g = g1 + 1 := ⟨g - 1, by omega⟩
        unfold parseElems
        simp +decide only [hg1 g1 (by omega), hsk2, h5D, if_true, hes]
      · simp +decide only [h5D, if_false] at h
        by_cases h2C : c2.val = 0x2C
        swap
        · simp [h2C] at h
        simp +decide only [h2C, if_true] at h
        cases hp2 : parseElems f d r2 with
        | none => simp [hp2] at h
        | some p =>
          obtain ⟨es2, rest2⟩ := p
          simp +decide only [hp2, Option.some.injEq, Prod.mk.injEq] at h
          obtain ⟨hes, hrest⟩ := h
          subst hrest
          obtain ⟨hl2, hg2⟩ := he d r2 es2 rest2 hp2
          refine ⟨by omega, fun g hg => ?_⟩
          obtain ⟨g1, rfl⟩ : ∃ g1, g = g1 + 1 := ⟨g - 1, by omega⟩
          unfold parseElems
          simp +decide only [hg1 g1 (by omega), hsk2, h5D, if_false, h2C, if_true, hg2 g1 (by omega),
            hes]

theorem parse_fuelFree (f : Nat) :
    FuelFree parseValue f ∧ FuelFree parseMembers f ∧ FuelFree parseElems f := by
  induction f with
  | zero =>
    refine ⟨?_, ?_, ?_⟩ <;> intro d s v rest h
    · unfold parseValue at h; simp at h
    · unfold parseMembers at h; simp at h
    · unfold parseElems at h; simp at h
  | succ f ih =>
    exact ⟨parseValue_fuelFree f ih.2.1 ih.2.2, parseMembers_fuelFree f ih.1 ih.2.1,
      parseElems_fuelFree f ih.1 ih.2.2⟩

/-- Fuel beyond `inputLength + 1` never changes what `parseValue` returns. -/
theorem parseValue_fuel (f d : Nat) (s : List Byte) (hf : s.length + 1 ≤ f) :
    parseValue f d s = parseValue (s.length + 1) d s := by
  cases h1 : parseValue (s.length + 1) d s with
  | some p =>
    obtain ⟨v, rest⟩ := p
    exact ((parse_fuelFree _).1 d s v rest h1).2 f (by omega)
  | none =>
    cases h2 : parseValue f d s with
    | none => rfl
    | some p =>
      obtain ⟨v, rest⟩ := p
      have := ((parse_fuelFree _).1 d s v rest h2).2 (s.length + 1) (by omega)
      rw [h1] at this
      exact absurd this (by simp)

theorem DecodeRune_size_pos (b : Byte) (t : List Byte) : 1 ≤ (DecodeRune (b :: t)).2 := by
  by_cases hv : (DecodeRune (b :: t)).1 = RuneError ∧ (DecodeRune (b :: t)).2 = 1
  · rw [hv.2]
  · by_cases hb : b.val < 0x80
    · simp [DecodeRune, hb]
    · obtain ⟨c, rest, _, hc, hlen⟩ := DecodeRune_chunk b t (by omega) hv
      have := hc.length_pos
      omega

theorem unquoteAux_fuel : ∀ (f g : Nat) (s : List Byte), s.length ≤ f → s.length ≤ g →
    unquoteAux f s = unquoteAux g s := by
  intro f
  induction f with
  | zero =>
    intro g s hf hg
    have : s = [] := List.length_eq_zero.mp (by omega)
    subst this
    cases g <;> rfl
  | succ f ih =>
    intro g s hf hg
    cases s with
    | nil => cases g <;> rfl
    | cons c r =>
      simp only [List.length_cons] at hf hg
      obtain ⟨g1, rfl⟩ : ∃ g1, g = g1 + 1 := ⟨g - 1, by omega⟩
      have key : ∀ t : List Byte, t.length ≤ r.length → unquoteAux f t = unquoteAux g1 t :=
        fun t ht => ih g1 t (by omega) (by omega)
      have hd := DecodeRune_size_pos c r
      have k4 : unquoteAux f ((c :: r).drop (DecodeRune (c :: r)).2)
          = unquoteAux g1 ((c :: r).drop (DecodeRune (c :: r)).2) :=
        key _ (by simp only [List.length_drop, List.length_cons]; omega)
      have k1 : unquoteAux f r = unquoteAux g1 r := key r (le_refl _)
      cases r with
      | nil =>
        conv_lhs => unfold unquoteAux
        conv_rhs => unfold unquoteAux
        dsimp only
        rw [k1, k4]
      | cons e r1 =>
        have k2 : unquoteAux f ((c :: e :: r1).drop 6) = unquoteAux g1 ((c :: e :: r1).drop 6) :=
          key _ (by simp only [List.length_drop, List.length_cons]; omega)
        have k3 : unquoteAux f (((c :: e :: r1).drop 6).drop 6)
            = unquoteAux g1 (((c :: e :: r1).drop 6).drop 6) :=
          key _ (by simp only [List.length_drop, List.length_cons]; omega)
        have k5 : unquoteAux f r1 = unquoteAux g1 r1 :=
          key _ (by simp only [List.length_cons]; omega)
        conv_lhs => unfold unquoteAux
        conv_rhs => unfold unquoteAux
        dsimp only
        rw [k1, k4, k5, k2, k3]

theorem escapeAux_fuel : ∀ (f g : Nat) (s : GoString), s.length ≤ f → s.length ≤ g →
    escapeAux f s = escapeAux g s := by
  intro f
  induction f with
  | zero =>
    intro g s hf hg
    have : s = [] := List.length_eq_zero.mp (by omega)
    subst this
    cases g <;> rfl
  | succ f ih =>
    intro g s hf hg
    cases s with
    | nil => cases g <;> rfl
    | cons c r =>
      simp only [List.length_cons] at hf hg
      obtain ⟨g1, rfl⟩ : ∃ g1, g = g1 + 1 := ⟨g - 1, by omega⟩
      have hd := DecodeRune_size_pos c r
      have k1 : escapeAux f r = escapeAux g1 r := ih g1 r (by omega) (by omega)
      have k4 : escapeAux f ((c :: r).drop (DecodeRune (c :: r)).2)
          = escapeAux g1 ((c :: r).drop (DecodeRune (c :: r)).2) :=
        ih g1 _ (by simp only [List.length_drop, List.length_cons]; omega)
          (by simp only [List.length_drop, List.length_cons]; omega)
      conv_lhs => unfold escapeAux
      conv_rhs => unfold escapeAux
      dsimp only
      rw [k1, k4]

theorem ValidAux_fuel : ∀ (f g : Nat) (s : GoString), s.length ≤ f → s.length ≤ g →
    ValidAux f s = ValidAux g s := by
  intro f
  induction f with
  | zero =>
    intro g s hf hg
    have : s = [] := List.length_eq_zero.mp (by omega)
    subst this
    cases g <;> rfl
  | succ f ih =>
    intro g s hf hg
    cases s with
    | nil => cases g <;> rfl
    | cons c r =>
      simp only [List.length_cons] at hf hg
      obtain ⟨g1, rfl⟩ : ∃ g1, g = g1 + 1 := ⟨g - 1, by omega⟩
      have hd := DecodeRune_size_pos c r
      have k4 : ValidAux f ((c :: r).drop (DecodeRune (c :: r)).2)
          = ValidAux g1 ((c :: r).drop (DecodeRune (c :: r)).2) :=
        ih g1 _ (by simp only [List.length_drop, List.length_cons]; omega)
          (by simp only [List.length_drop, List.length_cons]; omega)
      conv_lhs => unfold ValidAux
      conv_rhs => unfold ValidAux
      dsimp only
      rw [k4]

end Ding
